import Mathlib

/-!
# Guidely.ai chat widget (`static/js/main.js`)

A shallow embedding of the browser script: the chat history kept in
`localStorage`, the submit / clear handlers, the query client, the theme
controller and the copy button of the links panel.

Texts are sequences of UTF-16 code units, as in the host language.  The host
services the script calls but does not define (number printing, dates, the
markdown renderer) are collected in `Host`.
-/

namespace Guidely

/-! ## Texts -/

/-- A host string: its UTF-16 code units (each below 65536). -/
abbrev Str := List Nat

/-- The code units of a string literal of the script. -/
def utf16 (s : String) : Str :=
  s.toList.flatMap fun c =>
    if c.toNat < 0x10000 then [c.toNat]
    else [0xD800 + (c.toNat - 0x10000) / 0x400, 0xDC00 + (c.toNat - 0x10000) % 0x400]

/-- Whether `p` is an initial segment of `s`. -/
def startsWith : Str → Str → Bool
  | [], _ => true
  | _ :: _, [] => false
  | a :: p, b :: s => a == b && startsWith p s

/-- The host's `String.prototype.includes`: `sub` occurs in `s` as a run of consecutive code units. -/
def includes (s sub : Str) : Bool :=
  match s with
  | [] => startsWith sub []
  | c :: rest => startsWith sub (c :: rest) || includes rest sub

/-- White space and line terminators removed by `String.prototype.trim`. -/
def isTrimSpace (c : Nat) : Bool :=
  c == 0x09 || c == 0x0A || c == 0x0B || c == 0x0C || c == 0x0D || c == 0x20 ||
  c == 0xA0 || c == 0x1680 || (0x2000 ≤ c && c ≤ 0x200A) || c == 0x2028 ||
  c == 0x2029 || c == 0x202F || c == 0x205F || c == 0x3000 || c == 0xFEFF

/-- The host's `String.prototype.trim`. -/
def trim (s : Str) : Str :=
  ((s.dropWhile isTrimSpace).reverse.dropWhile isTrimSpace).reverse

/-! ## JSON values -/

/-- The values `JSON.parse` can produce.  A number is carried as the text the
host prints for it (`Number::toString` of the double the literal denotes);
an object is the list of its own properties in enumeration order. -/
inductive JValue where
  | null
  | bool (b : Bool)
  | num (n : Str)
  | str (s : Str)
  | arr (xs : List JValue)
  | obj (kvs : List (Str × JValue))

/-- An array index: the canonical decimal text of an integer below `2^32 - 1`. -/
def indexOf (k : Str) : Option Nat :=
  match k with
  | [] => none
  | d :: ds =>
    if (d :: ds).all (fun c => 0x30 ≤ c && c ≤ 0x39) && (d != 0x30 || ds.isEmpty) then
      let n := (d :: ds).foldl (fun acc c => 10 * acc + (c - 0x30)) 0
      if n < 4294967295 then some n else none
    else none

/-- Whether the object has an own property `k`. -/
def hasKey (kvs : List (Str × JValue)) (k : Str) : Bool :=
  kvs.any fun kv => kv.1 == k

/-- Own property lookup; `none` is `undefined`. -/
def lookup (kvs : List (Str × JValue)) (k : Str) : Option JValue :=
  match kvs with
  | [] => none
  | (k', v) :: rest => if k' = k then some v else lookup rest k

/-- Overwrite the value of an existing own property, keeping its position. -/
def replaceKey (kvs : List (Str × JValue)) (k : Str) (v : JValue) : List (Str × JValue) :=
  match kvs with
  | [] => []
  | (k', v') :: rest => if k' = k then (k, v) :: rest else (k', v') :: replaceKey rest k v

/-- Create an array-index property: index keys enumerate first, in ascending order. -/
def insertIndex (n : Nat) (k : Str) (v : JValue) : List (Str × JValue) → List (Str × JValue)
  | [] => [(k, v)]
  | (k', v') :: rest =>
    match indexOf k' with
    | some m => if m < n then (k', v') :: insertIndex n k v rest else (k, v) :: (k', v') :: rest
    | none => (k, v) :: (k', v') :: rest

/-- Property assignment `o[k] = v` on an ordinary object. -/
def objSet (kvs : List (Str × JValue)) (k : Str) (v : JValue) : List (Str × JValue) :=
  if hasKey kvs k then replaceKey kvs k v
  else match indexOf k with
    | some n => insertIndex n k v kvs
    | none => kvs ++ [(k, v)]

/-! ## `JSON.stringify` -/

/-- Lower-case hexadecimal digit. -/
def hexDigit (d : Nat) : Nat := if d < 10 then 0x30 + d else 0x61 + (d - 10)

/-- The six-unit escape of a code unit (backslash, `u`, four hex digits). -/
def uEscape (c : Nat) : Str :=
  [0x5C, 0x75, hexDigit (c / 4096 % 16), hexDigit (c / 256 % 16), hexDigit (c / 16 % 16),
    hexDigit (c % 16)]

/-- Leading surrogate. -/
def isHigh (c : Nat) : Bool := 0xD800 ≤ c && c ≤ 0xDBFF

/-- Trailing surrogate. -/
def isLow (c : Nat) : Bool := 0xDC00 ≤ c && c ≤ 0xDFFF

/-- The body of `QuoteJSONString`: escapes for the quote, the backslash, control
characters and unpaired surrogates; everything else is copied. -/
def quoteUnits : Str → Str
  | [] => []
  | c :: rest =>
    if c = 0x22 then 0x5C :: 0x22 :: quoteUnits rest
    else if c = 0x5C then 0x5C :: 0x5C :: quoteUnits rest
    else if c = 0x08 then 0x5C :: 0x62 :: quoteUnits rest
    else if c = 0x0C then 0x5C :: 0x66 :: quoteUnits rest
    else if c = 0x0A then 0x5C :: 0x6E :: quoteUnits rest
    else if c = 0x0D then 0x5C :: 0x72 :: quoteUnits rest
    else if c = 0x09 then 0x5C :: 0x74 :: quoteUnits rest
    else if c < 0x20 then uEscape c ++ quoteUnits rest
    else if isHigh c then
      match rest with
      | [] => uEscape c
      | d :: rest2 =>
        if isLow d then c :: d :: quoteUnits rest2 else uEscape c ++ quoteUnits (d :: rest2)
    else if isLow c then uEscape c ++ quoteUnits rest
    else c :: quoteUnits rest

/-- The host's `QuoteJSONString`. -/
def quote (s : Str) : Str := 0x22 :: (quoteUnits s ++ [0x22])

/-- The text `JSON.stringify` prints for a number: non-finite numbers print as `null`. -/
def numText (n : Str) : Str :=
  if n = utf16 "Infinity" ∨ n = utf16 "-Infinity" ∨ n = utf16 "NaN" then utf16 "null" else n

mutual
/-- The host's `JSON.stringify(v)` without an indent argument. -/
def stringify : JValue → Str
  | .null => utf16 "null"
  | .bool true => utf16 "true"
  | .bool false => utf16 "false"
  | .num n => numText n
  | .str s => quote s
  | .arr xs => 0x5B :: (stringifyElems xs ++ [0x5D])
  | .obj kvs => 0x7B :: (stringifyMembers kvs ++ [0x7D])
/-- The elements of an array, comma separated. -/
def stringifyElems : List JValue → Str
  | [] => []
  | [x] => stringify x
  | x :: y :: rest => stringify x ++ 0x2C :: stringifyElems (y :: rest)
/-- The members of an object, comma separated. -/
def stringifyMembers : List (Str × JValue) → Str
  | [] => []
  | [(k, v)] => quote k ++ 0x3A :: stringify v
  | (k, v) :: y :: rest => quote k ++ 0x3A :: (stringify v ++ 0x2C :: stringifyMembers (y :: rest))
end

/-! ## `JSON.parse` -/

/-- Value of a hexadecimal digit. -/
def hexVal (c : Nat) : Option Nat :=
  if 0x30 ≤ c ∧ c ≤ 0x39 then some (c - 0x30)
  else if 0x61 ≤ c ∧ c ≤ 0x66 then some (c - 0x61 + 10)
  else if 0x41 ≤ c ∧ c ≤ 0x46 then some (c - 0x41 + 10)
  else none

/-- The code unit written by four hexadecimal digits. -/
def hex4 (a b c d : Nat) : Option Nat :=
  match hexVal a, hexVal b, hexVal c, hexVal d with
  | some x, some y, some z, some w => some (x * 4096 + y * 256 + z * 16 + w)
  | _, _, _, _ => none

/-- The code unit of a single-character escape. -/
def unescape (e : Nat) : Option Nat :=
  if e = 0x22 then some 0x22
  else if e = 0x5C then some 0x5C
  else if e = 0x2F then some 0x2F
  else if e = 0x62 then some 0x08
  else if e = 0x66 then some 0x0C
  else if e = 0x6E then some 0x0A
  else if e = 0x72 then some 0x0D
  else if e = 0x74 then some 0x09
  else none

/-- A JSON string after its opening quote: its value and the text after the closing quote. -/
def parseChars : Str → Option (Str × Str)
  | [] => none
  | c :: rest =>
    if c = 0x22 then some ([], rest)
    else if c = 0x5C then
      match rest with
      | [] => none
      | e :: rest1 =>
        if e = 0x75 then
          match rest1 with
          | a :: b :: c2 :: d :: rest2 =>
            match hex4 a b c2 d with
            | some u =>
              match parseChars rest2 with
              | some (s, r) => some (u :: s, r)
              | none => none
            | none => none
          | _ => none
        else
          match unescape e with
          | some u =>
            match parseChars rest1 with
            | some (s, r) => some (u :: s, r)
            | none => none
          | none => none
    else if c < 0x20 then none
    else
      match parseChars rest with
      | some (s, r) => some (c :: s, r)
      | none => none

/-- JSON white space. -/
def isWs (c : Nat) : Bool := c == 0x20 || c == 0x09 || c == 0x0A || c == 0x0D

/-- Drop leading JSON white space. -/
def skipWs (cs : Str) : Str := cs.dropWhile isWs

/-- Decimal digit. -/
def isDigit (c : Nat) : Bool := 0x30 ≤ c && c ≤ 0x39

/-- The longest run of leading digits, and the rest. -/
def takeDigits (cs : Str) : Str × Str := cs.span isDigit

/-- The integer part of a number: `0`, or a non-zero digit followed by digits. -/
def scanInt (cs : Str) : Option (Str × Str) :=
  match cs with
  | [] => none
  | d :: rest =>
    if d = 0x30 then some ([d], rest)
    else if isDigit d then some (d :: (takeDigits rest).1, (takeDigits rest).2)
    else none

/-- The optional fraction: a dot followed by at least one digit. -/
def scanFrac (cs : Str) : Option (Str × Str) :=
  match cs with
  | 0x2E :: rest =>
    if (takeDigits rest).1 = [] then none else some (0x2E :: (takeDigits rest).1, (takeDigits rest).2)
  | _ => some ([], cs)

/-- The optional exponent: `e` or `E`, an optional sign, at least one digit. -/
def scanExp (cs : Str) : Option (Str × Str) :=
  match cs with
  | [] => some ([], [])
  | e :: rest =>
    if e = 0x65 ∨ e = 0x45 then
      match rest with
      | [] => none
      | s :: rest1 =>
        if s = 0x2B ∨ s = 0x2D then
          if (takeDigits rest1).1 = [] then none
          else some (e :: s :: (takeDigits rest1).1, (takeDigits rest1).2)
        else if (takeDigits rest).1 = [] then none
        else some (e :: (takeDigits rest).1, (takeDigits rest).2)
    else some ([], cs)

/-- A JSON number literal without sign at the head of the text, and the rest. -/
def scanUnsigned (cs : Str) : Option (Str × Str) :=
  match scanInt cs with
  | none => none
  | some (i, r1) =>
    match scanFrac r1 with
    | none => none
    | some (f, r2) =>
      match scanExp r2 with
      | none => none
      | some (e, r3) => some (i ++ f ++ e, r3)

/-- A JSON number literal at the head of the text, and the rest. -/
def scanNumber (cs : Str) : Option (Str × Str) :=
  match cs with
  | [] => none
  | c :: rest =>
    if c = 0x2D then
      match scanUnsigned rest with
      | some (lit, r) => some (c :: lit, r)
      | none => none
    else scanUnsigned (c :: rest)

/-- The elements of a non-empty array after the opening bracket, `pv` parsing one value. -/
def parseElems (pv : Str → Option (JValue × Str)) :
    Nat → Str → List JValue → Option (JValue × Str)
  | 0, _, _ => none
  | n + 1, cs, acc =>
    match pv cs with
    | none => none
    | some (v, r) =>
      match skipWs r with
      | [] => none
      | d :: r1 =>
        if d = 0x2C then parseElems pv n r1 (acc ++ [v])
        else if d = 0x5D then some (.arr (acc ++ [v]), r1)
        else none

/-- The members of a non-empty object after the opening brace, `pv` parsing one value. -/
def parseMembers (pv : Str → Option (JValue × Str)) :
    Nat → Str → List (Str × JValue) → Option (JValue × Str)
  | 0, _, _ => none
  | n + 1, cs, acc =>
    match skipWs cs with
    | [] => none
    | c :: r =>
      if c = 0x22 then
        match parseChars r with
        | none => none
        | some (k, r1) =>
          match skipWs r1 with
          | [] => none
          | c2 :: r2 =>
            if c2 = 0x3A then
              match pv r2 with
              | none => none
              | some (v, r3) =>
                match skipWs r3 with
                | [] => none
                | d :: r4 =>
                  if d = 0x2C then parseMembers pv n r4 (objSet acc k v)
                  else if d = 0x7D then some (.obj (objSet acc k v), r4)
                  else none
            else none
      else none

/-- One JSON value at the head of the text (after white space), and the rest.
`canon` is the host's reading of a number literal; the first argument bounds the
nesting depth and the number of items. -/
def parseValue (canon : Str → Str) : Nat → Str → Option (JValue × Str)
  | 0, _ => none
  | fuel + 1, cs =>
    match skipWs cs with
    | [] => none
    | c :: rest =>
      if c = 0x22 then
        match parseChars rest with
        | some (s, r) => some (.str s, r)
        | none => none
      else if c = 0x5B then
        match skipWs rest with
        | [] => none
        | d :: rest1 =>
          if d = 0x5D then some (.arr [], rest1)
          else parseElems (parseValue canon fuel) fuel (d :: rest1) []
      else if c = 0x7B then
        match skipWs rest with
        | [] => none
        | d :: rest1 =>
          if d = 0x7D then some (.obj [], rest1)
          else parseMembers (parseValue canon fuel) fuel (d :: rest1) []
      else if startsWith (utf16 "true") (c :: rest) then some (.bool true, rest.drop 3)
      else if startsWith (utf16 "false") (c :: rest) then some (.bool false, rest.drop 4)
      else if startsWith (utf16 "null") (c :: rest) then some (.null, rest.drop 3)
      else
        match scanNumber (c :: rest) with
        | some (lit, r) => some (.num (canon lit), r)
        | none => none

/-- The host's `JSON.parse(text)`: `none` when the host throws a `SyntaxError`.  Every item
of the text takes at least one code unit, so the length bounds depth and count. -/
def jsonParse (canon : Str → Str) (text : Str) : Option JValue :=
  match parseValue canon (text.length + 1) text with
  | some (v, r) => if skipWs r = [] then some v else none
  | none => none

/-! ## Host services and abrupt completions -/

/-- Services of the browser and of the markdown library that the script calls
and does not define. -/
structure Host where
  /-- The text `Number::toString` prints for the double a JSON number literal denotes. -/
  canonNumber : Str → Str
  /-- The text of `Date.prototype.toISOString` for a time value of the clock. -/
  toISOString : Int → Str
  /-- The time value of `new Date(v)` for a primitive `v`; `none` is an invalid date. -/
  dateOf : JValue → Option Int
  /-- The text of `Intl.DateTimeFormat(undefined, ...).format` with the
  year / month / day / hour / minute options of `formatTimestamp`. -/
  format : Int → Str
  /-- The markup `marked.parse` returns for a string. -/
  marked : Str → Str
  /-- The message the engine gives to an error it raises itself. -/
  message : Str → Str

/-- An exception value: every value thrown in this script is an `Error` object. -/
structure Thrown where
  name : Str
  message : Str
  deriving DecidableEq

/-- A `TypeError` raised by the engine (`what` names the failing operation). -/
def typeError (H : Host) (what : String) : Thrown :=
  ⟨utf16 "TypeError", H.message (utf16 what)⟩

/-- A `RangeError` raised by the engine. -/
def rangeError (H : Host) (what : String) : Thrown :=
  ⟨utf16 "RangeError", H.message (utf16 what)⟩

/-- A `SyntaxError` raised by the JSON parser. -/
def syntaxError (H : Host) (text : Str) : Thrown :=
  ⟨utf16 "SyntaxError", H.message text⟩

/-- The value of `new Error(message)`. -/
def newError (message : Str) : Thrown := ⟨utf16 "Error", message⟩

/-- JS truthiness of a JSON value (a number is falsy when it prints as `0` or `NaN`). -/
def truthy : JValue → Bool
  | .null => false
  | .bool b => b
  | .num n => !(n == utf16 "0" || n == utf16 "NaN")
  | .str s => !s.isEmpty
  | .arr _ => true
  | .obj _ => true

mutual
/-- The host's `ToString(v)`: arrays join their elements, a plain object prints as
`[object Object]` unless an own `toString` member (never callable here) hides
the inherited method. -/
def toStr (H : Host) : JValue → Except Thrown Str
  | .null => .ok (utf16 "null")
  | .bool true => .ok (utf16 "true")
  | .bool false => .ok (utf16 "false")
  | .num n => .ok n
  | .str s => .ok s
  | .arr xs => joinElems H xs
  | .obj kvs =>
    if hasKey kvs (utf16 "toString") then .error (typeError H "ToPrimitive")
    else .ok (utf16 "[object Object]")
/-- The host's `Array.prototype.join` with the default separator: `null` elements print as empty. -/
def joinElems (H : Host) : List JValue → Except Thrown Str
  | [] => .ok []
  | .null :: rest =>
    match rest with
    | [] => .ok []
    | y :: more =>
      match joinElems H (y :: more) with
      | .ok t => .ok (0x2C :: t)
      | .error e => .error e
  | x :: rest =>
    match toStr H x with
    | .error e => .error e
    | .ok s =>
      match rest with
      | [] => .ok s
      | y :: more =>
        match joinElems H (y :: more) with
        | .ok t => .ok (s ++ 0x2C :: t)
        | .error e => .error e
end

/-- Member access `v.name` for a name that no prototype defines (`role`,
`content`, `ts`, `error`, `answer`): `none` is `undefined`; reading a member of
`null` throws. -/
def member (H : Host) (v : JValue) (name : Str) : Except Thrown (Option JValue) :=
  match v with
  | .null => .error (typeError H "member of null")
  | .obj kvs => .ok (lookup kvs name)
  | _ => .ok none

/-- Optional chaining `v?.name` for such a name. -/
def memberOpt (v : JValue) (name : Str) : Option JValue :=
  match v with
  | .obj kvs => lookup kvs name
  | _ => none

/-- Assignment `v.name = x` where `v` is an object. -/
def setMember (v : JValue) (name : Str) (x : JValue) : JValue :=
  match v with
  | .obj kvs => .obj (objSet kvs name x)
  | other => other

/-- Strict equality `v === "s"` of a possibly undefined value with a string literal. -/
def isStr (v : Option JValue) (s : Str) : Bool :=
  match v with
  | some (.str t) => t == s
  | _ => false

/-- The date `new Date(v)`: the time value, `none` for an invalid date.  An object is
first converted to a primitive. -/
def newDate (H : Host) (v : Option JValue) : Except Thrown (Option Int) :=
  match v with
  | none => .ok none
  | some (.arr xs) =>
    match toStr H (.arr xs) with
    | .ok s => .ok (H.dateOf (.str s))
    | .error e => .error e
  | some (.obj kvs) =>
    match toStr H (.obj kvs) with
    | .ok s => .ok (H.dateOf (.str s))
    | .error e => .error e
  | some p => .ok (H.dateOf p)

/-! ## The page -/

/-- The two keys of `localStorage` the script uses (`CHAT_KEY`, `THEME_KEY`);
`none` is an absent key.  Writes always succeed (no quota is modelled). -/
structure Storage where
  chat : Option Str
  theme : Option Str
  deriving DecidableEq

/-- What `renderMessage` puts into the bubble. -/
inductive Bubble where
  /-- After `bubble.innerHTML = markup`. -/
  | html (markup : Str)
  /-- After `bubble.textContent = content` (`none` is `undefined`). -/
  | text (content : Option JValue)

/-- The element `renderMessage` builds. -/
structure MsgElement where
  className : Str
  bubble : Bubble
  metaText : Str

/-- The text input `#chat-input`. -/
structure InputEl where
  value : Str
  disabled : Bool
  focused : Bool
  deriving DecidableEq

/-- The button `#chat-submit`. -/
structure SubmitEl where
  disabled : Bool
  textContent : Str
  deriving DecidableEq

/-- The button `#theme-toggle`; `text` is its `.theme-toggle-text` child when present. -/
structure ToggleEl where
  ariaPressed : Option Str
  ariaLabel : Option Str
  text : Option Str
  deriving DecidableEq

/-- The copy button and text area of the links panel, with the timers set by the page. -/
structure LinksPanel where
  /-- The label `copyBtn.textContent`. -/
  copyLabel : Str
  /-- The text `textarea.value`. -/
  text : Str
  /-- Whether the text area's content is selected. -/
  selected : Bool
  /-- The system clipboard as far as the page wrote it. -/
  clipboard : Option Str
  /-- Number of `document.execCommand("copy")` calls. -/
  legacyCopies : Nat
  /-- Pending `setTimeout` callbacks: the delay and the label the callback sets. -/
  timers : List (Nat × Str)
  deriving DecidableEq

/-- The state the script reads and writes.  An element that the document lacks is `none`. -/
structure Page where
  storage : Storage
  /-- The children of `#chat`. -/
  chatEl : Option (List MsgElement)
  inputEl : Option InputEl
  submitEl : Option SubmitEl
  /-- Whether `document.documentElement.classList` contains `dark`. -/
  dark : Bool
  toggle : Option ToggleEl
  /-- The instants (milliseconds) the clock shows at successive `new Date()` calls. -/
  clock : Nat → Int
  /-- How many times the clock has been read. -/
  reads : Nat

/-- How a run of script code ends. -/
inductive Outcome (α : Type) where
  /-- Normal completion. -/
  | ok (a : α)
  /-- An exception propagates. -/
  | threw (e : Thrown)
  /-- The run left the embedding: numeric coercion of an array-like object. -/
  | beyond

/-- A run of script code: the outcome and the page it leaves. -/
def Act (α : Type) : Type := Page → Outcome α × Page

/-- Sequencing: an abrupt completion skips the rest and keeps the page as it is. -/
def Act.bind {α β : Type} (x : Act α) (f : α → Act β) : Act β := fun p =>
  match x p with
  | (.ok a, p1) => f a p1
  | (.threw e, p1) => (.threw e, p1)
  | (.beyond, p1) => (.beyond, p1)

instance : Monad Act where
  pure a := fun p => (.ok a, p)
  bind := Act.bind

/-- The statement `throw e`. -/
def raise {α : Type} (e : Thrown) : Act α := fun p => (.threw e, p)

/-- Run a computation that does not touch the page. -/
def lift {α : Type} (x : Except Thrown α) : Act α := fun p =>
  match x with
  | .ok a => (.ok a, p)
  | .error e => (.threw e, p)

/-- The statement `try { body } catch (err) { handler(err) }`. -/
def tryCatch {α : Type} (body : Act α) (handler : Thrown → Act α) : Act α := fun p =>
  match body p with
  | (.threw e, p1) => handler e p1
  | r => r

/-- The statement `try { body } finally { cleanup }`. -/
def tryFinally {α : Type} (body : Act α) (cleanup : Act Unit) : Act α := fun p =>
  match body p with
  | (.beyond, p1) => (.beyond, p1)
  | (r, p1) =>
    match cleanup p1 with
    | (.ok _, p2) => (r, p2)
    | (.threw e, p2) => (.threw e, p2)
    | (.beyond, p2) => (.beyond, p2)

/-- The current content of `localStorage`. -/
def getStorage : Act Storage := fun p => (.ok p.storage, p)

/-- The expression `new Date()`: read the clock. -/
def now : Act Int := fun p => (.ok (p.clock p.reads), { p with reads := p.reads + 1 })

/-! ## Chat history -/

/-- Placeholder marker looked for by the submit handler. -/
def marker : Str := utf16 "Crafting your personalized"

/-- Content of the temporary assistant message. -/
def placeholderText : Str := utf16 "✨ Crafting your personalized travel plans..."

/-- Function `loadChat`: the parsed value of the stored text, `[]` when the key is absent,
the text is empty, or parsing throws. -/
def loadChat (H : Host) (st : Storage) : JValue :=
  let raw : Str :=
    match st.chat with
    | none => utf16 "[]"
    | some t => if t = [] then utf16 "[]" else t
  match jsonParse H.canonNumber raw with
  | some v => v
  | none => .arr []

/-- Function `saveChat`. -/
def saveChat (messages : JValue) : Act Unit := fun p =>
  (.ok (), { p with storage := { p.storage with chat := some (stringify messages) } })

/-- Function `formatTimestamp(d)` for a date `d` (`none` is an invalid date, which the formatter rejects). -/
def formatTimestamp (H : Host) (d : Option Int) : Except Thrown Str :=
  match d with
  | some t => .ok (H.format t)
  | none => .error (rangeError H "Invalid time value")

/-- Function `renderMessage`. -/
def renderMessage (H : Host) (m : JValue) : Except Thrown MsgElement := do
  let role ← member H m (utf16 "role")
  let content ← member H m (utf16 "content")
  let ts ← member H m (utf16 "ts")
  let className := utf16 "msg " ++ (if isStr role (utf16 "user") then utf16 "user" else utf16 "assistant")
  let bubble ←
    if isStr role (utf16 "assistant") then
      match content with
      | some (.str c) => pure (Bubble.html (H.marked c))
      | _ => throw (newError (H.message (utf16 "marked(): input is not a string")))
    else pure (Bubble.text content)
  let d ← newDate H ts
  let stamp ← formatTimestamp H d
  let metaText :=
    (if isStr role (utf16 "user") then utf16 "You" else utf16 "Guidely.ai") ++ utf16 " • " ++ stamp
  pure { className := className, bubble := bubble, metaText := metaText }

/-- The strings a `for ... of` loop over a string yields: one per code point. -/
def codePoints : Str → List Str
  | [] => []
  | [c] => [[c]]
  | c :: d :: rest =>
    if isHigh c && isLow d then [c, d] :: codePoints rest else [c] :: codePoints (d :: rest)

/-- The loop of `renderMessages`: append the element of each message to `#chat`. -/
def appendAll (H : Host) : List JValue → Act Unit
  | [] => pure ()
  | m :: rest => fun p =>
    match renderMessage H m with
    | .ok el => appendAll H rest { p with chatEl := p.chatEl.map fun els => els ++ [el] }
    | .error e => (.threw e, p)

/-- Function `renderMessages`. -/
def renderMessages (H : Host) (messages : JValue) : Act Unit := fun p =>
  match p.chatEl with
  | none => (.ok (), p)
  | some _ =>
    let p1 := { p with chatEl := some [] }
    match messages with
    | .arr ms => appendAll H ms p1
    | .str s => appendAll H ((codePoints s).map JValue.str) p1
    | _ => (.threw (typeError H "not iterable"), p1)

/-- Function `addMessage`. -/
def addMessage (H : Host) (role content : Str) : Act JValue := fun p =>
  let messages := loadChat H p.storage
  (do
    let t ← now
    let msg := JValue.obj
      [(utf16 "role", .str role), (utf16 "content", .str content), (utf16 "ts", .str (H.toISOString t))]
    match messages with
    | .arr ms =>
      saveChat (.arr (ms ++ [msg]))
      renderMessages H (.arr (ms ++ [msg]))
      pure msg
    | .null => raise (typeError H "member of null")
    | _ => raise (typeError H "push is not a function")) p

/-- Function `setLoading`. -/
def setLoading (H : Host) (loading : Bool) : Act Unit := fun p =>
  match p.submitEl with
  | none => (.ok (), p)
  | some _ =>
    let label : Str := if loading then utf16 "Thinking…" else utf16 "Send"
    let p1 := { p with submitEl := some ⟨loading, label⟩ }
    match p1.inputEl with
    | none => (.threw (typeError H "member of null"), p1)
    | some f => (.ok (), { p1 with inputEl := some { f with disabled := loading } })

/-! ## Query client -/

/-- How the `fetch` of a request ends. -/
inductive FetchOutcome where
  /-- The request fails and `fetch` rejects with `e`. -/
  | rejected (e : Thrown)
  /-- A response arrives with this status and body text. -/
  | response (status : Nat) (body : Str)

/-- Function `sendQuery`, `net` being the answering service: what a `POST /query` with
the given body comes back with. -/
def sendQuery (H : Host) (net : Str → FetchOutcome) (query : Str) : Except Thrown JValue :=
  match net (stringify (.obj [(utf16 "query", .str query)])) with
  | .rejected e => .error e
  | .response status body =>
    match jsonParse H.canonNumber body with
    | none => .error (syntaxError H body)
    | some data =>
      if ¬ (200 ≤ status ∧ status ≤ 299) then
        match memberOpt data (utf16 "error") with
        | some v =>
          if truthy v then
            match toStr H v with
            | .ok s => .error (newError s)
            | .error e => .error e
          else .error (newError (utf16 "Unknown error"))
        | none => .error (newError (utf16 "Unknown error"))
      else
        match memberOpt data (utf16 "answer") with
        | some v => if truthy v then .ok v else .ok (.str (utf16 "No answer returned."))
        | none => .ok (.str (utf16 "No answer returned."))

/-! ## Submit and clear handlers -/

/-- The loop condition `messages[i].role === "assistant" &&
messages[i].content.includes("Crafting your personalized")`.  `includes` exists
on strings and on arrays only. -/
def isPending (H : Host) (m : JValue) : Except Thrown Bool := do
  let role ← member H m (utf16 "role")
  if isStr role (utf16 "assistant") then
    let content ← member H m (utf16 "content")
    match content with
    | some (.str s) => pure (includes s marker)
    | some (.arr xs) => pure (xs.any fun x => isStr (some x) marker)
    | some .null => throw (typeError H "member of null")
    | none => throw (typeError H "member of undefined")
    | _ => throw (typeError H "includes is not a function")
  else pure false

/-- The backward loop `for (let i = messages.length - 1; i >= 0; i--)` over an
array, entered with `i + 1` as the counter: the first pending message met is
rewritten by `rewrite` and the loop breaks. -/
def scanBack (H : Host) (rewrite : JValue → Act JValue) (ms : List JValue) :
    Nat → Act (List JValue)
  | 0 => pure ms
  | i + 1 =>
    match ms[i]? with
    | none => pure ms
    | some m => do
      if (← lift (isPending H m)) then
        let m1 ← rewrite m
        pure (ms.set i m1)
      else scanBack H rewrite ms i

/-- The loop over whatever `loadChat` returned.  A string has one-character
strings as elements and none has a `role`; a boolean or a number has no
`length`, and neither has an object without such a member, so the loop body
never runs; `null` has no members at all. -/
def replacePending (H : Host) (rewrite : JValue → Act JValue) (messages : JValue) : Act JValue :=
  match messages with
  | .arr ms => do
    let ms1 ← scanBack H rewrite ms ms.length
    pure (.arr ms1)
  | .null => raise (typeError H "member of null")
  | .obj kvs => if hasKey kvs (utf16 "length") then fun p => (.beyond, p) else pure (.obj kvs)
  | other => pure other

/-- The loop body of the success branch: the answer replaces the content, the
time stamp is refreshed. -/
def rewriteAnswer (H : Host) (answer : JValue) (m : JValue) : Act JValue := do
  let generatedAt ← lift (formatTimestamp H (some (← now)))
  let a ← lift (toStr H answer)
  let m1 := setMember m (utf16 "content")
    (.str (utf16 "Guidely.ai Travel Plan\n\nGenerated: " ++ generatedAt ++ utf16 "\n\n" ++ a))
  let t ← now
  pure (setMember m1 (utf16 "ts") (.str (H.toISOString t)))

/-- The text of `err?.message || err` inside a template literal: the message,
or what `Error.prototype.toString` prints when the message is empty. -/
def errText (err : Thrown) : Str :=
  if err.message = [] then err.name else err.message

/-- The loop body of the catch branch. -/
def rewriteFailure (H : Host) (err : Thrown) (m : JValue) : Act JValue := do
  let m1 := setMember m (utf16 "content") (.str (utf16 "❌ Bot failed to respond: " ++ errText err))
  let t ← now
  pure (setMember m1 (utf16 "ts") (.str (H.toISOString t)))

/-- The `try` block of the submit handler, from the answer of the service on. -/
def onAnswer (H : Host) (net : Str → FetchOutcome) (query : Str) : Act Unit := do
  let answer ← lift (sendQuery H net query)
  let st ← getStorage
  let messages ← replacePending H (rewriteAnswer H answer) (loadChat H st)
  saveChat messages
  renderMessages H messages

/-- The `catch` block of the submit handler. -/
def onFailure (H : Host) (err : Thrown) : Act Unit := do
  let st ← getStorage
  let messages ← replacePending H (rewriteFailure H err) (loadChat H st)
  saveChat messages
  renderMessages H messages

/-- Focus the input: `inputEl.focus()` (a disabled control does not take the focus). -/
def focusInput (f : InputEl) : InputEl := { f with focused := !f.disabled }

/-- The `finally` block of the submit handler. -/
def afterSubmit (H : Host) : Act Unit := do
  setLoading H false
  fun p =>
    match p.inputEl with
    | none => (.threw (typeError H "member of null"), p)
    | some f => (.ok (), { p with inputEl := some (focusInput { f with value := [] }) })

/-- The `submit` listener of `#chat-form`, the request being answered by `net`
with nothing else running on the page while it is in flight. -/
def submitHandler (H : Host) (net : Str → FetchOutcome) : Act Unit := fun p =>
  match p.inputEl with
  | none => (.threw (typeError H "member of null"), p)
  | some f =>
    let query := trim f.value
    if query = [] then (.ok (), p)
    else
      (do
        let _ ← addMessage H (utf16 "user") query
        let _ ← addMessage H (utf16 "assistant") placeholderText
        setLoading H true
        tryFinally (tryCatch (onAnswer H net query) (onFailure H)) (afterSubmit H)) p

/-- The `click` listener of `#chat-clear`. -/
def clearHandler (H : Host) : Act Unit := do
  fun p => (.ok (), { p with storage := { p.storage with chat := none } })
  renderMessages H (.arr [])
  fun p =>
    match p.inputEl with
    | none => (.ok (), p)
    | some f => (.ok (), { p with inputEl := some (focusInput f) })

/-! ## Theme -/

/-- Function `applyTheme`. -/
def applyTheme (theme : Str) (p : Page) : Page :=
  let isDark : Bool := theme == utf16 "dark"
  let p1 := { p with dark := isDark }
  match p1.toggle with
  | none => p1
  | some tg =>
    let pressed : Str := if isDark then utf16 "true" else utf16 "false"
    let text : Option Str := tg.text.map fun _ => if isDark then utf16 "Light" else utf16 "Dark"
    let label : Str := if isDark then utf16 "Switch to light mode" else utf16 "Switch to dark mode"
    { p1 with toggle := some ⟨some pressed, some label, text⟩ }

/-- Function `getPreferredTheme`; `system` is `matchMedia("(prefers-color-scheme: dark)").matches`,
`none` when the window has no `matchMedia`. -/
def getPreferredTheme (st : Storage) (system : Option Bool) : Str :=
  match st.theme with
  | some saved =>
    if saved = utf16 "light" ∨ saved = utf16 "dark" then saved
    else if system = some true then utf16 "dark" else utf16 "light"
  | none => if system = some true then utf16 "dark" else utf16 "light"

/-- The `click` listener of `#theme-toggle`. -/
def toggleTheme (p : Page) : Page :=
  let next : Str := if p.dark then utf16 "light" else utf16 "dark"
  applyTheme next { p with storage := { p.storage with theme := some next } }

/-! ## Links panel -/

/-- The `click` listener of `#copy-links-md`; `written` tells whether
`navigator.clipboard.writeText` fulfils. -/
def copyHandler (written : Bool) (l : LinksPanel) : LinksPanel :=
  let l1 := { l with selected := true }
  if written then
    { l1 with
      clipboard := some l1.text
      copyLabel := utf16 "Copied!"
      timers := l1.timers ++ [(1200, utf16 "Copy")] }
  else { l1 with legacyCopies := l1.legacyCopies + 1 }

/-! ## Chat histories as the specification sees them -/

/-- The members of a flat record: names and text values. -/
abbrev Fields := List (Str × Str)

/-- The object with these members. -/
def record (fs : Fields) : JValue := .obj (fs.map fun kv => (kv.1, .str kv.2))

/-- The text of member `k` of a record. -/
def field (fs : Fields) (k : Str) : Option Str :=
  match fs with
  | [] => none
  | (k', s) :: rest => if k' = k then some s else field rest k

/-- Whether the members can be those of a parsed object, in this order: the
names are pairwise distinct and none is an array index. -/
def plainKeys (fs : Fields) : Bool :=
  match fs with
  | [] => true
  | (k, _) :: rest => (indexOf k).isNone && !(rest.any fun kv => kv.1 == k) && plainKeys rest

/-- Whether the record has the three members of a message. -/
def hasFields (fs : Fields) : Bool :=
  (field fs (utf16 "role")).isSome && (field fs (utf16 "content")).isSome &&
    (field fs (utf16 "ts")).isSome

/-- A well-formed message: an object with text members `role`, `content` and
`ts`, the time stamp being one the host reads as a date. -/
def isMessage (H : Host) (fs : Fields) : Bool :=
  plainKeys fs && hasFields fs &&
    match field fs (utf16 "ts") with
    | some t => (H.dateOf (.str t)).isSome
    | none => false

/-- The record with the text of its member `k` replaced by `v`. -/
def withField (fs : Fields) (k v : Str) : Fields :=
  match fs with
  | [] => []
  | (k', s) :: rest => if k' = k then (k, v) :: rest else (k', s) :: withField rest k v

/-- The record `addMessage` creates. -/
def message (role content ts : Str) : Fields :=
  [(utf16 "role", role), (utf16 "content", content), (utf16 "ts", ts)]

/-- The array of these records. -/
def history (h : List Fields) : JValue := .arr (h.map record)

/-- Whether a message is a pending placeholder: an assistant message whose
content contains the marker. -/
def pending (fs : Fields) : Bool :=
  field fs (utf16 "role") == some (utf16 "assistant") &&
    match field fs (utf16 "content") with
    | some c => includes c marker
    | none => false

/-- What the chat surface shows for a message, in the words of the
specification: the class names the author; an assistant message shows the
markup the markdown renderer gives for its content, any other message its
content as plain text; the label joins the author's name and the formatted
time stamp. -/
def shownAs (H : Host) (fs : Fields) : MsgElement :=
  let byUser : Bool := field fs (utf16 "role") == some (utf16 "user")
  let stamp : Str :=
    match (field fs (utf16 "ts")).bind fun t => H.dateOf (.str t) with
    | some d => H.format d
    | none => []
  { className := utf16 "msg " ++ (if byUser then utf16 "user" else utf16 "assistant")
    bubble :=
      if field fs (utf16 "role") == some (utf16 "assistant") then
        Bubble.html (H.marked ((field fs (utf16 "content")).getD []))
      else Bubble.text ((field fs (utf16 "content")).map JValue.str)
    metaText := (if byUser then utf16 "You" else utf16 "Guidely.ai") ++ utf16 " • " ++ stamp }

/-- Running `addMessage` for each (role, content) pair in turn. -/
def addAll (H : Host) : List (Str × Str) → Act Unit
  | [] => pure ()
  | (role, content) :: rest => do
    let _ ← addMessage H role content
    addAll H rest

/-- A click on the clear button followed by `addMessage` calls, nothing else in between. -/
def clearThenAdd (H : Host) (calls : List (Str × Str)) : Act Unit := do
  clearHandler H
  addAll H calls

/-- The messages a run of `addAll` creates when the clock has been read `r`
times before: one per call, each stamped with the next instant of the clock. -/
def stamped (H : Host) (clock : Nat → Int) : Nat → List (Str × Str) → List Fields
  | _, [] => []
  | r, (role, content) :: rest =>
    message role content (H.toISOString (clock r)) :: stamped H clock (r + 1) rest

/-! ## Sample data -/

/-- A host for the examples: numbers print as written, every time stamp reads
as a date, the markdown renderer and the engine messages are the identity. -/
def sampleHost : Host where
  canonNumber := id
  toISOString := fun t => utf16 "2025-01-01T00:00:0" ++ [0x30 + t.toNat % 10] ++ utf16 ".000Z"
  dateOf := fun _ => some 0
  format := fun _ => utf16 "01/01/2025, 12:00 AM"
  marked := id
  message := id

/-- A placeholder left in the history by an earlier submission. -/
def stale : Fields :=
  message (utf16 "assistant") placeholderText (utf16 "2024-12-31T23:59:59.000Z")

/-- A page whose stored history is the stale placeholder alone and whose input
holds a query. -/
def samplePage : Page where
  storage :=
    { chat := some (utf16 "[\x7b\"role\":\"assistant\",\"content\":\"✨ Crafting your personalized travel plans...\",\"ts\":\"2024-12-31T23:59:59.000Z\"\x7d]")
      theme := none }
  chatEl := some []
  inputEl := some { value := utf16 "  Plan a 3-day trip to Goa ", disabled := false, focused := true }
  submitEl := some { disabled := false, textContent := utf16 "Send" }
  dark := false
  toggle := some { ariaPressed := none, ariaLabel := none, text := some (utf16 "Dark") }
  clock := fun n => 1000 + n
  reads := 0

/-- An answering service that always succeeds. -/
def okService : Str → FetchOutcome :=
  fun _ => .response 200 (utf16 "\x7b\"answer\":\"Day 1: ...\"\x7d")

/-- An answering service that always fails. -/
def failingService : Str → FetchOutcome :=
  fun _ => .response 500 (utf16 "\x7b\"error\":\"rate limited\"\x7d")

/-- A history with two placeholders and user messages, one quoting the marker. -/
def sampleHistory : List Fields :=
  [stale,
   message (utf16 "user") (utf16 "Why does it say Crafting your personalized?") (utf16 "2025-01-01T00:00:01.000Z"),
   message (utf16 "assistant") placeholderText (utf16 "2025-01-01T00:00:02.000Z"),
   message (utf16 "user") (utf16 "hello") (utf16 "2025-01-01T00:00:03.000Z")]

/-- The links panel before any click. -/
def sampleLinks : LinksPanel where
  copyLabel := utf16 "Copy"
  text := utf16 "[GitHub](https://github.com/arpitkadam)"
  selected := false
  clipboard := none
  legacyCopies := 0
  timers := []

/-! ## JSON: what is written is read back -/

theorem parseChars_cons (c : Nat) (rest : Str) :
    parseChars (c :: rest) =
      if c = 0x22 then some ([], rest)
      else if c = 0x5C then
        match rest with
        | [] => none
        | e :: rest1 =>
          if e = 0x75 then
            match rest1 with
            | a :: b :: c2 :: d :: rest2 =>
              match hex4 a b c2 d with
              | some u =>
                match parseChars rest2 with
                | some (s, r) => some (u :: s, r)
                | none => none
              | none => none
            | _ => none
          else
            match unescape e with
            | some u =>
              match parseChars rest1 with
              | some (s, r) => some (u :: s, r)
              | none => none
            | none => none
      else if c < 0x20 then none
      else
        match parseChars rest with
        | some (s, r) => some (c :: s, r)
        | none => none := by
  rw [parseChars.eq_def]
  rfl

theorem quoteUnits_cons (c : Nat) (rest : Str) :
    quoteUnits (c :: rest) =
      if c = 0x22 then 0x5C :: 0x22 :: quoteUnits rest
      else if c = 0x5C then 0x5C :: 0x5C :: quoteUnits rest
      else if c = 0x08 then 0x5C :: 0x62 :: quoteUnits rest
      else if c = 0x0C then 0x5C :: 0x66 :: quoteUnits rest
      else if c = 0x0A then 0x5C :: 0x6E :: quoteUnits rest
      else if c = 0x0D then 0x5C :: 0x72 :: quoteUnits rest
      else if c = 0x09 then 0x5C :: 0x74 :: quoteUnits rest
      else if c < 0x20 then uEscape c ++ quoteUnits rest
      else if isHigh c then
        match rest with
        | [] => uEscape c
        | d :: rest2 =>
          if isLow d then c :: d :: quoteUnits rest2 else uEscape c ++ quoteUnits (d :: rest2)
      else if isLow c then uEscape c ++ quoteUnits rest
      else c :: quoteUnits rest := by
  rw [quoteUnits.eq_def]
  rfl

theorem hexVal_hexDigit : ∀ d, d < 16 → hexVal (hexDigit d) = some d := by decide

theorem hex4_uEscape (c : Nat) (h : c < 65536) :
    hex4 (hexDigit (c / 4096 % 16)) (hexDigit (c / 256 % 16)) (hexDigit (c / 16 % 16))
      (hexDigit (c % 16)) = some c := by
  unfold hex4
  rw [hexVal_hexDigit _ (Nat.mod_lt _ (by norm_num)), hexVal_hexDigit _ (Nat.mod_lt _ (by norm_num)),
    hexVal_hexDigit _ (Nat.mod_lt _ (by norm_num)), hexVal_hexDigit _ (Nat.mod_lt _ (by norm_num))]
  simp only [Option.some.injEq]
  omega

theorem parseChars_uEscape (c : Nat) (h : c < 65536) (t : Str) :
    parseChars (uEscape c ++ t) =
      match parseChars t with
      | some (s, r) => some (c :: s, r)
      | none => none := by
  simp [uEscape, parseChars_cons, hex4_uEscape c h]

/-- Reading the body of a quoted string gives the string back. -/
theorem parseChars_quoteUnits (s rest : Str) :
    parseChars (quoteUnits s ++ 0x22 :: rest) = some (s, rest) := by
  induction s using quoteUnits.induct with
  | case1 => simp [quoteUnits, parseChars_cons]
  | case2 rest' ih => simp [quoteUnits_cons, parseChars_cons, unescape, ih]
  | case3 rest' _ ih => simp [quoteUnits_cons, parseChars_cons, unescape, ih]
  | case4 rest' _ _ ih => simp [quoteUnits_cons, parseChars_cons, unescape, ih]
  | case5 rest' _ _ _ ih => simp [quoteUnits_cons, parseChars_cons, unescape, ih]
  | case6 rest' _ _ _ _ ih => simp [quoteUnits_cons, parseChars_cons, unescape, ih]
  | case7 rest' _ _ _ _ _ ih => simp [quoteUnits_cons, parseChars_cons, unescape, ih]
  | case8 rest' _ _ _ _ _ _ ih => simp [quoteUnits_cons, parseChars_cons, unescape, ih]
  | case9 c rest' h1 h2 h3 h4 h5 h6 h7 h8 ih =>
    have hc : c < 65536 := by omega
    simp [quoteUnits_cons, h1, h2, h3, h4, h5, h6, h7, h8, parseChars_uEscape c hc, ih]
  | case10 c h1 h2 h3 h4 h5 h6 h7 h8 h9 =>
    have hc : c < 65536 := by simp [isHigh] at h9; omega
    simp [quoteUnits_cons, h1, h2, h3, h4, h5, h6, h7, h8, h9, parseChars_uEscape c hc,
      parseChars_cons]
  | case11 c h1 h2 h3 h4 h5 h6 h7 h8 h9 d rest2 hd ih =>
    have hd1 : d ≠ 0x22 := by simp [isLow] at hd; omega
    have hd2 : d ≠ 0x5C := by simp [isLow] at hd; omega
    have hd3 : ¬ d < 0x20 := by simp [isLow] at hd; omega
    simp [quoteUnits_cons, h1, h2, h3, h4, h5, h6, h7, h8, h9, hd, parseChars_cons, hd1, hd2,
      hd3, ih]
  | case12 c h1 h2 h3 h4 h5 h6 h7 h8 h9 d rest2 hd ih =>
    have hc : c < 65536 := by simp [isHigh] at h9; omega
    simp only [List.cons_append] at ih
    rw [quoteUnits_cons]
    simp [h1, h2, h3, h4, h5, h6, h7, h8, h9, hd, parseChars_uEscape c hc, ih]
  | case13 c rest' h1 h2 h3 h4 h5 h6 h7 h8 h9 h10 ih =>
    have hc : c < 65536 := by simp [isLow] at h10; omega
    simp [quoteUnits_cons, h1, h2, h3, h4, h5, h6, h7, h8, h9, h10, parseChars_uEscape c hc, ih]
  | case14 c rest' h1 h2 h3 h4 h5 h6 h7 h8 h9 h10 ih =>
    simp [quoteUnits_cons, h1, h2, h3, h4, h5, h6, h7, h8, h9, h10, parseChars_cons, ih]

theorem skipWs_cons (c : Nat) (r : Str) (h : isWs c = false) : skipWs (c :: r) = c :: r := by
  simp [skipWs, List.dropWhile, h]

theorem skipWs_quote (s r : Str) : skipWs (quote s ++ r) = quote s ++ r := by
  simp [quote, skipWs, List.dropWhile, isWs]

/-- A quoted string is read as that string, whatever follows. -/
theorem parseValue_quote (canon : Str → Str) (fuel : Nat) (s rest : Str) :
    parseValue canon (fuel + 1) (quote s ++ rest) = some (.str s, rest) := by
  rw [parseValue, skipWs_quote]
  have := parseChars_quoteUnits s rest
  simp [quote, this]

theorem hasKey_map_false (fs : Fields) (k : Str) (h : (fs.any fun kv => kv.1 == k) = false) :
    hasKey (fs.map fun kv => (kv.1, JValue.str kv.2)) k = false := by
  induction fs with
  | nil => rfl
  | cons kv rest ih =>
    simp only [List.any_cons, Bool.or_eq_false_iff] at h
    simp only [hasKey, List.map_cons, List.any_cons, h.1, Bool.false_or]
    exact ih h.2

theorem objSet_fresh (acc : Fields) (k s : Str) (hk : indexOf k = none)
    (hn : (acc.any fun kv => kv.1 == k) = false) :
    objSet (acc.map fun kv => (kv.1, JValue.str kv.2)) k (.str s) =
      (acc ++ [(k, s)]).map fun kv => (kv.1, JValue.str kv.2) := by
  simp [objSet, hasKey_map_false acc k hn, hk]

theorem plainKeys_iff (fs : Fields) :
    plainKeys fs = true ↔ (fs.map Prod.fst).Nodup ∧ ∀ k ∈ fs.map Prod.fst, indexOf k = none := by
  induction fs with
  | nil => simp [plainKeys]
  | cons kv rest ih =>
    obtain ⟨k, s⟩ := kv
    simp only [plainKeys, Bool.and_eq_true, ih, List.map_cons, List.nodup_cons, List.mem_cons,
      forall_eq_or_imp, Option.isNone_iff_eq_none, Bool.not_eq_true', List.any_eq_false,
      beq_iff_eq, List.mem_map, Prod.exists, exists_and_right, exists_eq_right, not_exists]
    constructor
    · rintro ⟨⟨h1, h2⟩, h3, h4⟩
      exact ⟨⟨fun x hx => h2 (k, x) hx rfl, h3⟩, h1, h4⟩
    · rintro ⟨⟨h2, h3⟩, h1, h4⟩
      refine ⟨⟨h1, ?_⟩, h3, h4⟩
      rintro ⟨a, b⟩ hab rfl
      exact h2 b hab

theorem plainKeys_step (acc rest : Fields) (k s : Str) (h : plainKeys (acc ++ (k, s) :: rest) = true) :
    indexOf k = none ∧ (acc.any fun kv => kv.1 == k) = false ∧
      plainKeys ((acc ++ [(k, s)]) ++ rest) = true := by
  have h2 : plainKeys ((acc ++ [(k, s)]) ++ rest) = true := by simpa using h
  rw [plainKeys_iff] at h
  obtain ⟨hnd, hidx⟩ := h
  refine ⟨hidx k (by simp), ?_, h2⟩
  simp only [List.map_append, List.map_cons, List.nodup_append, List.nodup_cons] at hnd
  simp only [List.any_eq_false, beq_iff_eq]
  rintro ⟨a, b⟩ hab rfl
  exact hnd.2.2 (List.mem_map_of_mem Prod.fst hab) (List.mem_cons_self _ _)

theorem quote_append (s r : Str) : quote s ++ r = 0x22 :: (quoteUnits s ++ 0x22 :: r) := by
  simp [quote]

theorem parseMembers_step (canon : Str → Str) (f n : Nat) (k s : Str) (d : Nat) (r : Str)
    (acc : List (Str × JValue)) (hd : isWs d = false) :
    parseMembers (parseValue canon (f + 1)) (n + 1) (quote k ++ 0x3A :: (quote s ++ d :: r)) acc =
      if d = 0x2C then parseMembers (parseValue canon (f + 1)) n r (objSet acc k (.str s))
      else if d = 0x7D then some (.obj (objSet acc k (.str s)), r)
      else none := by
  rw [parseMembers, skipWs_quote, quote_append]
  simp only [↓reduceIte, parseChars_quoteUnits]
  rw [skipWs_cons _ _ (by decide)]
  simp only [↓reduceIte, parseValue_quote canon f s (d :: r)]
  rw [skipWs_cons _ _ hd]

theorem stringifyMembers_one (k s t : Str) :
    stringifyMembers [(k, JValue.str s)] ++ t = quote k ++ 0x3A :: (quote s ++ t) := by
  simp [stringifyMembers, stringify]

theorem stringifyMembers_more (k s t : Str) (y : Str × JValue) (m : List (Str × JValue)) :
    stringifyMembers ((k, JValue.str s) :: y :: m) ++ t =
      quote k ++ 0x3A :: (quote s ++ 0x2C :: (stringifyMembers (y :: m) ++ t)) := by
  simp [stringifyMembers, stringify]

/-- Reading the members of a written record gives the members back, in order. -/
theorem parseMembers_record (canon : Str → Str) (f : Nat) (fs : Fields) :
    ∀ (n : Nat) (acc : Fields) (rest : Str), fs ≠ [] → fs.length ≤ n →
      plainKeys (acc ++ fs) = true →
      parseMembers (parseValue canon (f + 1)) n
          (stringifyMembers (fs.map fun kv => (kv.1, JValue.str kv.2)) ++ 0x7D :: rest)
          (acc.map fun kv => (kv.1, JValue.str kv.2)) =
        some (.obj ((acc ++ fs).map fun kv => (kv.1, JValue.str kv.2)), rest) := by
  induction fs with
  | nil => intro n acc rest h; exact absurd rfl h
  | cons kv more ih =>
    intro n acc rest _ hn hp
    obtain ⟨k, s⟩ := kv
    obtain ⟨hidx, hfresh, hp2⟩ := plainKeys_step acc more k s hp
    obtain ⟨n, rfl⟩ : ∃ m, n = m + 1 := ⟨n - 1, by simp at hn; omega⟩
    cases more with
    | nil =>
      simp only [List.map_cons, List.map_nil]
      rw [stringifyMembers_one, parseMembers_step _ _ _ _ _ _ _ _ (by decide)]
      simp [objSet_fresh acc k s hidx hfresh]
    | cons kv2 more2 =>
      have hlen : (kv2 :: more2).length ≤ n := by simp at hn ⊢; omega
      have := ih n (acc ++ [(k, s)]) rest (by simp) hlen hp2
      simp only [List.map_cons] at this ⊢
      rw [stringifyMembers_more, parseMembers_step _ _ _ _ _ _ _ _ (by decide)]
      simp only [↓reduceIte]
      rw [objSet_fresh acc k s hidx hfresh, this]
      simp

theorem stringify_record (fs : Fields) (t : Str) :
    stringify (record fs) ++ t =
      0x7B :: (stringifyMembers (fs.map fun kv => (kv.1, JValue.str kv.2)) ++ 0x7D :: t) := by
  simp [record, stringify]

theorem stringifyMembers_head (kv : Str × Str) (more : Fields) (t : Str) :
    ∃ tail, stringifyMembers ((kv :: more).map fun kv => (kv.1, JValue.str kv.2)) ++ t =
      0x22 :: tail := by
  cases more with
  | nil => exact ⟨_, by simp [stringifyMembers, quote]; rfl⟩
  | cons kv2 more2 => exact ⟨_, by simp [stringifyMembers, quote]; rfl⟩

/-- A written record is read as that record, whatever follows. -/
theorem parseValue_record (canon : Str → Str) (F : Nat) (fs : Fields) (rest : Str)
    (hF : fs.length ≤ F) (hp : plainKeys fs = true) :
    parseValue canon (F + 1) (stringify (record fs) ++ rest) = some (record fs, rest) := by
  rw [stringify_record, parseValue, skipWs_cons _ _ (by decide)]
  simp only [Nat.reduceEqDiff, ↓reduceIte]
  cases fs with
  | nil => simp [stringifyMembers, skipWs_cons, isWs, record]
  | cons kv more =>
    obtain ⟨F, rfl⟩ : ∃ m, F = m + 1 := ⟨F - 1, by simp at hF; omega⟩
    have h := parseMembers_record canon F (kv :: more) (F + 1) [] rest (by simp) hF (by simpa using hp)
    obtain ⟨tail, ht⟩ := stringifyMembers_head kv more (0x7D :: rest)
    rw [ht] at h ⊢
    rw [skipWs_cons _ _ (by decide)]
    simp only [Nat.reduceEqDiff, ↓reduceIte]
    simpa [record] using h

theorem stringifyElems_one (v : JValue) (t : Str) :
    stringifyElems [v] ++ t = stringify v ++ t := by
  simp [stringifyElems]

theorem stringifyElems_more (v y : JValue) (m : List JValue) (t : Str) :
    stringifyElems (v :: y :: m) ++ t = stringify v ++ 0x2C :: (stringifyElems (y :: m) ++ t) := by
  simp [stringifyElems]

/-- Reading the elements of a written array of records gives the records back, in order. -/
theorem parseElems_records (canon : Str → Str) (F : Nat) (h : List Fields) :
    ∀ (n : Nat) (acc : List JValue) (rest : Str), h ≠ [] → h.length ≤ n →
      (∀ fs ∈ h, fs.length ≤ F ∧ plainKeys fs = true) →
      parseElems (parseValue canon (F + 1)) n (stringifyElems (h.map record) ++ 0x5D :: rest) acc =
        some (.arr (acc ++ h.map record), rest) := by
  induction h with
  | nil => intro n acc rest h0; exact absurd rfl h0
  | cons fs more ih =>
    intro n acc rest _ hn hall
    obtain ⟨n, rfl⟩ : ∃ m, n = m + 1 := ⟨n - 1, by simp at hn; omega⟩
    have hfs := hall fs (List.mem_cons_self _ _)
    cases more with
    | nil =>
      simp only [List.map_cons, List.map_nil]
      rw [stringifyElems_one, parseElems, parseValue_record canon F fs _ hfs.1 hfs.2]
      simp only []
      rw [skipWs_cons _ _ (by decide)]
      simp
    | cons fs2 more2 =>
      have hlen : (fs2 :: more2).length ≤ n := by simp at hn ⊢; omega
      have := ih n (acc ++ [record fs]) rest (by simp) hlen
        (fun x hx => hall x (List.mem_cons_of_mem _ hx))
      simp only [List.map_cons] at this ⊢
      rw [stringifyElems_more, parseElems, parseValue_record canon F fs _ hfs.1 hfs.2]
      simp only []
      rw [skipWs_cons _ _ (by decide)]
      simp only [↓reduceIte]
      rw [this]
      simp

theorem length_stringifyMembers (fs : Fields) :
    fs.length ≤ (stringifyMembers (fs.map fun kv => (kv.1, JValue.str kv.2))).length := by
  induction fs with
  | nil => simp
  | cons kv more ih =>
    cases more with
    | nil => simp [stringifyMembers, quote]
    | cons kv2 more2 =>
      simp only [List.map_cons, stringifyMembers, List.length_append, List.length_cons] at ih ⊢
      omega

theorem length_stringify_record (fs : Fields) : fs.length + 2 ≤ (stringify (record fs)).length := by
  have := length_stringifyMembers fs
  simp [record, stringify]
  omega

theorem length_stringifyElems (h : List Fields) :
    h.length ≤ (stringifyElems (h.map record)).length ∧
      ∀ fs ∈ h, fs.length + 2 ≤ (stringifyElems (h.map record)).length := by
  induction h with
  | nil => simp
  | cons fs more ih =>
    have h1 := length_stringify_record fs
    cases more with
    | nil =>
      simp only [List.map_cons, List.map_nil, stringifyElems, List.length_singleton,
        List.mem_singleton, forall_eq]
      omega
    | cons fs2 more2 =>
      simp only [List.map_cons, stringifyElems, List.length_append, List.length_cons,
        List.mem_cons, forall_eq_or_imp] at ih ⊢
      refine ⟨by omega, by omega, by omega, fun a ha => ?_⟩
      have := ih.2.2 a ha
      omega

theorem length_stringify_history (h : List Fields) :
    (stringify (history h)).length = (stringifyElems (h.map record)).length + 2 := by
  simp [history, stringify]

/-- What `JSON.stringify` writes for an array of records, `JSON.parse` reads back. -/
theorem jsonParse_history (canon : Str → Str) (h : List Fields)
    (hp : ∀ fs ∈ h, plainKeys fs = true) :
    jsonParse canon (stringify (history h)) = some (history h) := by
  have hl := length_stringifyElems h
  have hlen := length_stringify_history h
  unfold jsonParse
  cases h with
  | nil => rfl
  | cons fs more =>
    obtain ⟨L, hL⟩ : ∃ L, (stringify (history (fs :: more))).length = L + 3 := by
      refine ⟨(stringify (history (fs :: more))).length - 3, ?_⟩
      have := hl.2 fs (List.mem_cons_self _ _)
      omega
    rw [hL]
    have hall : ∀ x ∈ fs :: more, x.length ≤ L + 2 ∧ plainKeys x = true := by
      intro x hx
      refine ⟨?_, hp x hx⟩
      have := hl.2 x hx
      omega
    have hn : (fs :: more).length ≤ L + 3 := by
      have := hl.1
      omega
    have key := parseElems_records canon (L + 2) (fs :: more) (L + 3) [] [] (by simp) hn hall
    have hhead : ∃ tail, stringifyElems ((fs :: more).map record) ++ [0x5D] = 0x7B :: tail := by
      cases more with
      | nil => exact ⟨_, by simp [stringifyElems, record, stringify]; rfl⟩
      | cons fs2 more2 => exact ⟨_, by simp [stringifyElems, record, stringify]; rfl⟩
    obtain ⟨tail, ht⟩ := hhead
    have hs : stringify (history (fs :: more)) = 0x5B :: 0x7B :: tail := by
      simp [history, stringify, ← ht]
    rw [ht] at key
    rw [hs, parseValue, skipWs_cons _ _ (by decide)]
    simp only [Nat.reduceEqDiff, ↓reduceIte]
    rw [skipWs_cons _ _ (by decide)]
    simp only [Nat.reduceEqDiff, ↓reduceIte]
    rw [key]
    simp [history, skipWs]

/-! ## The parser and its bound -/

theorem length_skipWs (cs : Str) : (skipWs cs).length ≤ cs.length := by
  unfold skipWs
  induction cs with
  | nil => simp
  | cons c rest ih =>
    simp only [List.dropWhile_cons]
    split
    · simp only [List.length_cons]; omega
    · exact Nat.le_refl _

/-- A string body that is read leaves less text than it was given. -/
theorem parseChars_shorter : ∀ (n : Nat) (cs s r : Str), cs.length ≤ n →
    parseChars cs = some (s, r) → r.length < cs.length := by
  intro n
  induction n with
  | zero =>
    intro cs s r hn h
    have : cs = [] := List.length_eq_zero.mp (Nat.le_zero.mp hn)
    subst this
    simp [parseChars] at h
  | succ n ih =>
    intro cs s r hn h
    cases cs with
    | nil => simp [parseChars] at h
    | cons c rest =>
      rw [parseChars_cons] at h
      simp only [List.length_cons] at hn ⊢
      split at h
      · simp only [Option.some.injEq, Prod.mk.injEq] at h
        rw [← h.2]; omega
      · split at h
        · split at h
          · cases h
          · rename_i e rest1
            split at h
            · split at h
              · rename_i a b c2 d rest2
                split at h
                · split at h
                  · rename_i s1 r1 hp
                    simp only [Option.some.injEq, Prod.mk.injEq] at h
                    have := ih rest2 s1 r1 (by simp only [List.length_cons] at hn; omega) hp
                    rw [← h.2]
                    simp only [List.length_cons]
                    omega
                  · cases h
                · cases h
              · cases h
            · split at h
              · split at h
                · rename_i s1 r1 hp
                  simp only [Option.some.injEq, Prod.mk.injEq] at h
                  have := ih rest1 s1 r1 (by simp only [List.length_cons] at hn; omega) hp
                  rw [← h.2]
                  simp only [List.length_cons]
                  omega
                · cases h
              · cases h
        · split at h
          · cases h
          · split at h
            · rename_i s1 r1 hp
              simp only [Option.some.injEq, Prod.mk.injEq] at h
              have := ih rest s1 r1 (by omega) hp
              rw [← h.2]
              omega
            · cases h

theorem length_takeDigits (cs : Str) : (takeDigits cs).2.length ≤ cs.length := by
  unfold takeDigits
  rw [List.span_eq_take_drop]
  exact (List.dropWhile_sublist _).length_le

theorem scanInt_shorter (cs i r : Str) (h : scanInt cs = some (i, r)) : r.length < cs.length := by
  unfold scanInt at h
  split at h
  · cases h
  · rename_i d rest
    split at h
    · simp only [Option.some.injEq, Prod.mk.injEq] at h
      rw [← h.2]; simp
    · split at h
      · simp only [Option.some.injEq, Prod.mk.injEq] at h
        have := length_takeDigits rest
        rw [← h.2]; simp only [List.length_cons]; omega
      · cases h

theorem scanFrac_shorter (cs f r : Str) (h : scanFrac cs = some (f, r)) : r.length ≤ cs.length := by
  unfold scanFrac at h
  split at h
  · rename_i rest
    split at h
    · cases h
    · simp only [Option.some.injEq, Prod.mk.injEq] at h
      have := length_takeDigits rest
      rw [← h.2]; simp only [List.length_cons]; omega
  · simp only [Option.some.injEq, Prod.mk.injEq] at h
    rw [← h.2]

theorem scanExp_shorter (cs e r : Str) (h : scanExp cs = some (e, r)) : r.length ≤ cs.length := by
  unfold scanExp at h
  split at h
  · simp only [Option.some.injEq, Prod.mk.injEq] at h
    rw [← h.2]
  · rename_i c rest
    split at h
    · split at h
      · cases h
      · rename_i s rest1
        have h1 := length_takeDigits rest1
        have h2 := length_takeDigits (s :: rest1)
        split at h
        · split at h
          · cases h
          · simp only [Option.some.injEq, Prod.mk.injEq] at h
            rw [← h.2]; simp only [List.length_cons]; omega
        · split at h
          · cases h
          · simp only [Option.some.injEq, Prod.mk.injEq] at h
            rw [← h.2]; simp only [List.length_cons] at h2 ⊢; omega
    · simp only [Option.some.injEq, Prod.mk.injEq] at h
      rw [← h.2]

theorem scanUnsigned_shorter (cs lit r : Str) (h : scanUnsigned cs = some (lit, r)) :
    r.length < cs.length := by
  unfold scanUnsigned at h
  split at h
  · cases h
  · rename_i i r1 hi
    have h1 := scanInt_shorter _ _ _ hi
    split at h
    · cases h
    · rename_i f r2 hf
      have h2 := scanFrac_shorter _ _ _ hf
      split at h
      · cases h
      · rename_i e r3 he
        have h3 := scanExp_shorter _ _ _ he
        simp only [Option.some.injEq, Prod.mk.injEq] at h
        rw [← h.2]
        omega

theorem scanNumber_shorter (cs lit r : Str) (h : scanNumber cs = some (lit, r)) :
    r.length < cs.length := by
  unfold scanNumber at h
  split at h
  · cases h
  · rename_i c rest
    split at h
    · split at h
      · rename_i l1 r1 hu
        have := scanUnsigned_shorter _ _ _ hu
        simp only [Option.some.injEq, Prod.mk.injEq] at h
        rw [← h.2]; simp only [List.length_cons]; omega
      · cases h
    · exact scanUnsigned_shorter _ _ _ h

theorem skipWs_cons_shorter (cs r : Str) (d : Nat) (h : skipWs cs = d :: r) :
    r.length < cs.length := by
  have := length_skipWs cs
  rw [h] at this
  simp only [List.length_cons] at this
  omega

theorem parseElems_shorter (pv : Str → Option (JValue × Str))
    (hpv : ∀ cs v r, pv cs = some (v, r) → r.length < cs.length) :
    ∀ (n : Nat) (cs : Str) (acc : List JValue) (v : JValue) (r : Str),
      parseElems pv n cs acc = some (v, r) → r.length < cs.length := by
  intro n
  induction n with
  | zero => intro cs acc v r h; simp [parseElems] at h
  | succ n ih =>
    intro cs acc v r h
    rw [parseElems] at h
    split at h
    · cases h
    · rename_i v1 r1 hp
      have h1 := hpv _ _ _ hp
      split at h
      · cases h
      · rename_i d r2 hw
        have h2 := skipWs_cons_shorter _ _ _ hw
        split at h
        · have := ih _ _ _ _ h
          omega
        · split at h
          · simp only [Option.some.injEq, Prod.mk.injEq] at h
            rw [← h.2]; omega
          · cases h

theorem parseMembers_shorter (pv : Str → Option (JValue × Str))
    (hpv : ∀ cs v r, pv cs = some (v, r) → r.length < cs.length) :
    ∀ (n : Nat) (cs : Str) (acc : List (Str × JValue)) (v : JValue) (r : Str),
      parseMembers pv n cs acc = some (v, r) → r.length < cs.length := by
  intro n
  induction n with
  | zero => intro cs acc v r h; simp [parseMembers] at h
  | succ n ih =>
    intro cs acc v r h
    rw [parseMembers] at h
    split at h
    · cases h
    · rename_i c r0 hw0
      have h0 := skipWs_cons_shorter _ _ _ hw0
      split at h
      · split at h
        · cases h
        · rename_i k r1 hk
          have h1 := parseChars_shorter _ _ _ _ (Nat.le_refl _) hk
          split at h
          · cases h
          · rename_i c2 r2 hw2
            have h2 := skipWs_cons_shorter _ _ _ hw2
            split at h
            · split at h
              · cases h
              · rename_i v3 r3 hp
                have h3 := hpv _ _ _ hp
                split at h
                · cases h
                · rename_i d r4 hw4
                  have h4 := skipWs_cons_shorter _ _ _ hw4
                  split at h
                  · have := ih _ _ _ _ h
                    omega
                  · split at h
                    · simp only [Option.some.injEq, Prod.mk.injEq] at h
                      rw [← h.2]; omega
                    · cases h
            · cases h
      · cases h

/-- A value that is read leaves less text than it was given. -/
theorem parseValue_shorter (canon : Str → Str) :
    ∀ (f : Nat) (cs : Str) (v : JValue) (r : Str),
      parseValue canon f cs = some (v, r) → r.length < cs.length := by
  intro f
  induction f with
  | zero => intro cs v r h; simp [parseValue] at h
  | succ f ih =>
    intro cs v r h
    rw [parseValue] at h
    split at h
    · cases h
    · rename_i c rest hw
      have h0 := skipWs_cons_shorter _ _ _ hw
      split at h
      · split at h
        · rename_i s r1 hs
          have := parseChars_shorter _ _ _ _ (Nat.le_refl _) hs
          simp only [Option.some.injEq, Prod.mk.injEq] at h
          rw [← h.2]; omega
        · cases h
      · split at h
        · split at h
          · cases h
          · rename_i d rest1 hw1
            have h1 := skipWs_cons_shorter _ _ _ hw1
            split at h
            · simp only [Option.some.injEq, Prod.mk.injEq] at h
              rw [← h.2]; omega
            · have := parseElems_shorter _ ih _ _ _ _ _ h
              simp only [List.length_cons] at this
              omega
        · split at h
          · split at h
            · cases h
            · rename_i d rest1 hw1
              have h1 := skipWs_cons_shorter _ _ _ hw1
              split at h
              · simp only [Option.some.injEq, Prod.mk.injEq] at h
                rw [← h.2]; omega
              · have := parseMembers_shorter _ ih _ _ _ _ _ h
                simp only [List.length_cons] at this
                omega
          · split at h
            · simp only [Option.some.injEq, Prod.mk.injEq] at h
              rw [← h.2]; simp only [List.length_drop]; omega
            · split at h
              · simp only [Option.some.injEq, Prod.mk.injEq] at h
                rw [← h.2]; simp only [List.length_drop]; omega
              · split at h
                · simp only [Option.some.injEq, Prod.mk.injEq] at h
                  rw [← h.2]; simp only [List.length_drop]; omega
                · split at h
                  · rename_i lit r1 hn
                    have := scanNumber_shorter _ _ _ hn
                    simp only [Option.some.injEq, Prod.mk.injEq] at h
                    simp only [List.length_cons] at this
                    rw [← h.2]; omega
                  · cases h

theorem parseElems_fuel (pv pv2 : Str → Option (JValue × Str))
    (hpv : ∀ cs v r, pv cs = some (v, r) → r.length < cs.length) :
    ∀ (n : Nat) (cs : Str) (acc : List JValue), cs.length < n →
      (∀ t : Str, t.length ≤ cs.length → pv2 t = pv t) →
      ∀ k, parseElems pv2 (n + k) cs acc = parseElems pv n cs acc := by
  intro n
  induction n with
  | zero => intro cs acc h; omega
  | succ n ih =>
    intro cs acc hlen hagree k
    rw [show n + 1 + k = (n + k) + 1 by omega, parseElems, parseElems, hagree cs (Nat.le_refl _)]
    cases hp : pv cs with
    | none => rfl
    | some x =>
      obtain ⟨v, r⟩ := x
      have h1 := hpv _ _ _ hp
      simp only
      cases hw : skipWs r with
      | nil => rfl
      | cons d r1 =>
        have h2 := skipWs_cons_shorter _ _ _ hw
        simp only
        rw [ih r1 (acc ++ [v]) (by omega) (fun t ht => hagree t (by omega)) k]

theorem parseMembers_fuel (pv pv2 : Str → Option (JValue × Str))
    (hpv : ∀ cs v r, pv cs = some (v, r) → r.length < cs.length) :
    ∀ (n : Nat) (cs : Str) (acc : List (Str × JValue)), cs.length < n →
      (∀ t : Str, t.length ≤ cs.length → pv2 t = pv t) →
      ∀ k, parseMembers pv2 (n + k) cs acc = parseMembers pv n cs acc := by
  intro n
  induction n with
  | zero => intro cs acc h; omega
  | succ n ih =>
    intro cs acc hlen hagree k
    rw [show n + 1 + k = (n + k) + 1 by omega, parseMembers, parseMembers]
    cases hw0 : skipWs cs with
    | nil => rfl
    | cons c r0 =>
      have h0 := skipWs_cons_shorter _ _ _ hw0
      simp only
      split
      · cases hk : parseChars r0 with
        | none => rfl
        | some x =>
          obtain ⟨key, r1⟩ := x
          have h1 := parseChars_shorter _ _ _ _ (Nat.le_refl _) hk
          simp only
          cases hw2 : skipWs r1 with
          | nil => rfl
          | cons c2 r2 =>
            have h2 := skipWs_cons_shorter _ _ _ hw2
            simp only
            split
            · rw [hagree r2 (by omega)]
              cases hp : pv r2 with
              | none => rfl
              | some y =>
                obtain ⟨v, r3⟩ := y
                have h3 := hpv _ _ _ hp
                simp only
                cases hw4 : skipWs r3 with
                | nil => rfl
                | cons d r4 =>
                  have h4 := skipWs_cons_shorter _ _ _ hw4
                  simp only
                  rw [ih r4 (objSet acc key v) (by omega) (fun t ht => hagree t (by omega)) k]
            · rfl
      · rfl

/-- More fuel than the length of the text changes nothing. -/
theorem parseValue_fuel (canon : Str → Str) :
    ∀ (f : Nat) (cs : Str), cs.length < f →
      ∀ k, parseValue canon (f + k) cs = parseValue canon f cs := by
  intro f
  induction f with
  | zero => intro cs h; omega
  | succ f ih =>
    intro cs hlen k
    rw [show f + 1 + k = (f + k) + 1 by omega, parseValue, parseValue]
    cases hw : skipWs cs with
    | nil => rfl
    | cons c rest =>
      have h0 := skipWs_cons_shorter _ _ _ hw
      simp only
      split
      · rfl
      · split
        · cases hw1 : skipWs rest with
          | nil => rfl
          | cons d rest1 =>
            have h1 := skipWs_cons_shorter _ _ _ hw1
            simp only
            split
            · rfl
            · exact parseElems_fuel _ _ (parseValue_shorter canon f) f (d :: rest1) []
                (by simp only [List.length_cons]; omega)
                (fun t ht => ih t (by simp only [List.length_cons] at ht; omega) k) k
        · split
          · cases hw1 : skipWs rest with
            | nil => rfl
            | cons d rest1 =>
              have h1 := skipWs_cons_shorter _ _ _ hw1
              simp only
              split
              · rfl
              · exact parseMembers_fuel _ _ (parseValue_shorter canon f) f (d :: rest1) []
                  (by simp only [List.length_cons]; omega)
                  (fun t ht => ih t (by simp only [List.length_cons] at ht; omega) k) k
          · rfl

/-- The bound `jsonParse` gives the parser is enough: a larger one gives the same result. -/
theorem jsonParse_fuel (canon : Str → Str) (text : Str) (k : Nat) :
    parseValue canon (text.length + 1 + k) text = parseValue canon (text.length + 1) text :=
  parseValue_fuel canon (text.length + 1) text (Nat.lt_succ_self _) k

/-! ## Runs -/

theorem bind_apply {α β : Type} (x : Act α) (f : α → Act β) (p : Page) :
    (x >>= f) p =
      match x p with
      | (.ok a, p1) => f a p1
      | (.threw e, p1) => (.threw e, p1)
      | (.beyond, p1) => (.beyond, p1) := rfl

theorem pure_apply {α : Type} (a : α) (p : Page) : (pure a : Act α) p = (.ok a, p) := rfl

theorem bind_ok {α β : Type} (x : Act α) (f : α → Act β) (p p1 : Page) (a : α)
    (h : x p = (.ok a, p1)) : (x >>= f) p = f a p1 := by
  rw [bind_apply, h]

/-! ## Records -/

theorem lookup_record (fs : Fields) (k : Str) :
    lookup (fs.map fun kv => (kv.1, JValue.str kv.2)) k = (field fs k).map JValue.str := by
  induction fs with
  | nil => rfl
  | cons kv rest ih =>
    obtain ⟨k', s⟩ := kv
    simp only [List.map_cons, lookup, field]
    split <;> simp [ih]

theorem member_record (H : Host) (fs : Fields) (k : Str) :
    member H (record fs) k = .ok ((field fs k).map JValue.str) := by
  simp [member, record, lookup_record]

theorem hasKey_record (fs : Fields) (k : Str) :
    hasKey (fs.map fun kv => (kv.1, JValue.str kv.2)) k = (field fs k).isSome := by
  induction fs with
  | nil => rfl
  | cons kv rest ih =>
    obtain ⟨k', s⟩ := kv
    simp only [hasKey, List.map_cons, List.any_cons, field] at ih ⊢
    by_cases h : k' = k
    · simp [h]
    · simp [h, ih]

theorem replaceKey_record (fs : Fields) (k v : Str) :
    replaceKey (fs.map fun kv => (kv.1, JValue.str kv.2)) k (.str v) =
      (withField fs k v).map fun kv => (kv.1, JValue.str kv.2) := by
  induction fs with
  | nil => rfl
  | cons kv rest ih =>
    obtain ⟨k', s⟩ := kv
    simp only [List.map_cons, replaceKey, withField]
    split <;> simp [ih]

/-- Assigning a text to an existing member of a record. -/
theorem setMember_record (fs : Fields) (k v : Str) (h : (field fs k).isSome = true) :
    setMember (record fs) k (.str v) = record (withField fs k v) := by
  simp [setMember, record, objSet, hasKey_record, h, replaceKey_record]

theorem field_withField_same (fs : Fields) (k v : Str) (h : (field fs k).isSome = true) :
    field (withField fs k v) k = some v := by
  induction fs with
  | nil => simp [field] at h
  | cons kv rest ih =>
    obtain ⟨k', s⟩ := kv
    by_cases hk : k' = k
    · simp [withField, field, hk]
    · simp only [field, hk, ↓reduceIte] at h
      simp [withField, field, hk, ih h]

theorem field_withField_other (fs : Fields) (k v j : Str) (h : j ≠ k) :
    field (withField fs k v) j = field fs j := by
  induction fs with
  | nil => rfl
  | cons kv rest ih =>
    obtain ⟨k', s⟩ := kv
    by_cases hk : k' = k
    · subst hk
      simp [withField, field, Ne.symm h]
    · simp [withField, field, hk, ih]

theorem keys_withField (fs : Fields) (k v : Str) :
    (withField fs k v).map Prod.fst = fs.map Prod.fst := by
  induction fs with
  | nil => rfl
  | cons kv rest ih =>
    obtain ⟨k', s⟩ := kv
    by_cases hk : k' = k
    · simp [withField, hk]
    · simp [withField, hk, ih]

theorem plainKeys_withField (fs : Fields) (k v : Str) :
    plainKeys (withField fs k v) = plainKeys fs := by
  rw [Bool.eq_iff_iff, plainKeys_iff, plainKeys_iff, keys_withField]

/-! ## Storage and rendering of well-formed histories -/

theorem isMessage_plain (H : Host) (fs : Fields) (h : isMessage H fs = true) :
    plainKeys fs = true := by
  simp only [isMessage, Bool.and_eq_true] at h
  exact h.1.1

/-- After `saveChat` of a history of well-formed messages, `loadChat` reads that history. -/
theorem loadChat_saved (H : Host) (st : Storage) (h : List Fields)
    (hp : ∀ fs ∈ h, plainKeys fs = true) :
    loadChat H { st with chat := some (stringify (history h)) } = history h := by
  have hne : stringify (history h) ≠ [] := by simp [history, stringify]
  simp [loadChat, hne, jsonParse_history H.canonNumber h hp]

/-- A well-formed message renders. -/
theorem renderMessage_message (H : Host) (fs : Fields) (h : isMessage H fs = true) :
    ∃ el, renderMessage H (record fs) = .ok el := by
  simp only [isMessage, hasFields, Bool.and_eq_true] at h
  obtain ⟨⟨_, ⟨hr, hc⟩, _⟩, ht⟩ := h
  obtain ⟨r, hr⟩ := Option.isSome_iff_exists.mp hr
  obtain ⟨c, hc⟩ := Option.isSome_iff_exists.mp hc
  cases hts : field fs (utf16 "ts") with
  | none => simp [hts] at ht
  | some t =>
    simp only [hts] at ht
    obtain ⟨d, hd⟩ := Option.isSome_iff_exists.mp ht
    simp only [renderMessage, member_record, hr, hc, hts, Option.map_some', bind, Except.bind,
      newDate, hd, formatTimestamp, pure, Except.pure]
    split <;> exact ⟨_, rfl⟩

/-- The elements that `renderMessage` builds for a list of messages. -/
theorem rendered_exists (H : Host) (h : List Fields) (hm : ∀ fs ∈ h, isMessage H fs = true) :
    ∃ els, List.Forall₂ (fun fs el => renderMessage H (record fs) = .ok el) h els := by
  induction h with
  | nil => exact ⟨[], List.Forall₂.nil⟩
  | cons fs rest ih =>
    obtain ⟨el, hel⟩ := renderMessage_message H fs (hm fs (List.mem_cons_self _ _))
    obtain ⟨els, hels⟩ := ih (fun x hx => hm x (List.mem_cons_of_mem _ hx))
    exact ⟨el :: els, List.Forall₂.cons hel hels⟩

/-- A well-formed message renders as the specification describes. -/
theorem renderMessage_shownAs (H : Host) (fs : Fields) (h : isMessage H fs = true) :
    renderMessage H (record fs) = .ok (shownAs H fs) := by
  simp only [isMessage, hasFields, Bool.and_eq_true] at h
  obtain ⟨⟨_, ⟨hr, hc⟩, _⟩, ht⟩ := h
  obtain ⟨r, hr⟩ := Option.isSome_iff_exists.mp hr
  obtain ⟨c, hc⟩ := Option.isSome_iff_exists.mp hc
  cases hts : field fs (utf16 "ts") with
  | none => simp [hts] at ht
  | some t =>
    simp only [hts] at ht
    obtain ⟨d, hd⟩ := Option.isSome_iff_exists.mp ht
    simp only [renderMessage, member_record, hr, hc, hts, Option.map_some', bind, Except.bind,
      newDate, hd, formatTimestamp, pure, Except.pure, shownAs, Option.bind, Option.getD]
    by_cases h1 : r = utf16 "assistant"
    · have hne : utf16 "assistant" ≠ utf16 "user" := by decide
      simp [isStr, h1, hne]
    · by_cases h2 : r = utf16 "user"
      · have hne : utf16 "user" ≠ utf16 "assistant" := by decide
        simp [isStr, h2, hne]
      · simp [isStr, h1, h2]

/-- The elements of a rendered list are determined by the messages. -/
theorem rendered_unique (H : Host) (h : List Fields) (els : List MsgElement)
    (hm : ∀ fs ∈ h, isMessage H fs = true)
    (hr : List.Forall₂ (fun fs el => renderMessage H (record fs) = .ok el) h els) :
    els = h.map (shownAs H) := by
  induction hr with
  | nil => rfl
  | @cons fs el rest els hel _ ih =>
    rw [renderMessage_shownAs H fs (hm fs (List.mem_cons_self _ _))] at hel
    cases hel
    rw [ih (fun x hx => hm x (List.mem_cons_of_mem _ hx))]
    rfl

theorem appendAll_rendered (H : Host) (h : List Fields) (els : List MsgElement)
    (hr : List.Forall₂ (fun fs el => renderMessage H (record fs) = .ok el) h els) :
    ∀ (p : Page) (shown : List MsgElement), p.chatEl = some shown →
      appendAll H (h.map record) p = (.ok (), { p with chatEl := some (shown ++ els) }) := by
  induction hr with
  | nil => intro p shown hp; simp [appendAll, pure_apply, ← hp]
  | @cons fs el rest els hel _ ih =>
    intro p shown hp
    simp only [List.map_cons, appendAll, hel]
    rw [ih _ (shown ++ [el]) (by simp [hp])]
    simp

/-- Rendering a history of well-formed messages fills the chat surface, when the
page has one, with their elements and changes nothing else. -/
theorem renderMessages_history (H : Host) (h : List Fields) (els : List MsgElement)
    (hr : List.Forall₂ (fun fs el => renderMessage H (record fs) = .ok el) h els) (p : Page) :
    renderMessages H (history h) p = (.ok (), { p with chatEl := p.chatEl.map fun _ => els }) := by
  unfold renderMessages
  cases hc : p.chatEl with
  | none => cases p; simp_all
  | some shown =>
    simp only [history]
    rw [appendAll_rendered H h els hr _ [] rfl]
    simp

theorem plainKeys_message (role content ts : Str) : plainKeys (message role content ts) = true := by
  rfl

/-- The record `addMessage` creates is a well-formed message. -/
theorem isMessage_message (H : Host) (role content ts : Str)
    (hv : (H.dateOf (.str ts)).isSome = true) :
    isMessage H (message role content ts) = true := by
  have h1 : field (message role content ts) (utf16 "ts") = some ts := by
    rfl
  have h2 : hasFields (message role content ts) = true := by rfl
  simp [isMessage, plainKeys_message, h1, h2, hv]

/-- Function `addMessage` on a stored history of well-formed messages: the new message is
appended to the stored history, the chat surface shows the elements of the new
history, the clock has been read once. -/
theorem addMessage_history (H : Host) (p : Page) (h : List Fields) (role content : Str)
    (hload : loadChat H p.storage = history h)
    (hm : ∀ fs ∈ h, isMessage H fs = true)
    (hiso : ∀ n, (H.dateOf (.str (H.toISOString (p.clock n)))).isSome = true) :
    ∃ els,
      List.Forall₂ (fun fs el => renderMessage H (record fs) = .ok el)
        (h ++ [message role content (H.toISOString (p.clock p.reads))]) els ∧
      addMessage H role content p =
        (.ok (record (message role content (H.toISOString (p.clock p.reads)))),
          { p with
            storage := { p.storage with
              chat := some (stringify
                (history (h ++ [message role content (H.toISOString (p.clock p.reads))]))) }
            chatEl := p.chatEl.map fun _ => els
            reads := p.reads + 1 }) := by
  have hm2 : ∀ fs ∈ h ++ [message role content (H.toISOString (p.clock p.reads))],
      isMessage H fs = true := by
    intro fs hfs
    rcases List.mem_append.mp hfs with h1 | h1
    · exact hm fs h1
    · rw [List.mem_singleton.mp h1]
      exact isMessage_message H role content _ (hiso _)
  obtain ⟨els, hels⟩ := rendered_exists H _ hm2
  refine ⟨els, hels, ?_⟩
  have hr := renderMessages_history H _ els hels
  simp only [addMessage, hload, history, bind_apply, now, saveChat]
  simp only [history, List.map_append, List.map_cons, List.map_nil] at hr
  have hrec : JValue.obj [(utf16 "role", .str role), (utf16 "content", .str content),
      (utf16 "ts", .str (H.toISOString (p.clock p.reads)))] =
      record (message role content (H.toISOString (p.clock p.reads))) := rfl
  rw [hrec, hr]
  simp [pure_apply]

/-! ## The backward scan -/

theorem lift_apply {α : Type} (x : Except Thrown α) (p : Page) :
    lift x p = match x with
      | .ok a => (.ok a, p)
      | .error e => (.threw e, p) := rfl

/-- On a record with a `content` text the loop condition is `pending`. -/
theorem isPending_record (H : Host) (fs : Fields) (hc : (field fs (utf16 "content")).isSome = true) :
    isPending H (record fs) = .ok (pending fs) := by
  obtain ⟨c, hc⟩ := Option.isSome_iff_exists.mp hc
  simp only [isPending, member_record, bind, Except.bind, pending, hc, Option.map_some']
  cases hr : field fs (utf16 "role") with
  | none => simp [isStr, pure, Except.pure]
  | some r =>
    by_cases h : r = utf16 "assistant"
    · simp [isStr, h, pure, Except.pure]
    · simp [isStr, h, pure, Except.pure]

/-- The scan passes over messages that are not pending. -/
theorem scanBack_skip (H : Host) (rewrite : JValue → Act JValue) (ms : List JValue) (p : Page) :
    ∀ n, (∀ j, j < n → ∀ m, ms[j]? = some m → isPending H m = .ok false) →
      scanBack H rewrite ms n p = (.ok ms, p) := by
  intro n
  induction n with
  | zero => intro _; rfl
  | succ i ih =>
    intro hall
    rw [scanBack]
    cases hm : ms[i]? with
    | none => rfl
    | some m =>
      simp only [bind_apply, lift_apply, hall i (Nat.lt_succ_self i) m hm]
      simp only [Bool.false_eq_true, ↓reduceIte]
      exact ih fun j hj => hall j (Nat.lt_succ_of_lt hj)

/-- The scan rewrites the last pending message and nothing else. -/
theorem scanBack_hit (H : Host) (rewrite : JValue → Act JValue) (pre post : List JValue)
    (m m1 : JValue) (p p1 : Page) (hm : isPending H m = .ok true)
    (hpost : ∀ x ∈ post, isPending H x = .ok false) (hrw : rewrite m p = (.ok m1, p1)) :
    ∀ n, n ≤ post.length →
      scanBack H rewrite (pre ++ m :: post) (pre.length + 1 + n) p = (.ok (pre ++ m1 :: post), p1) := by
  intro n
  induction n with
  | zero =>
    intro _
    rw [Nat.add_zero, scanBack]
    have hget : (pre ++ m :: post)[pre.length]? = some m := by
      rw [List.getElem?_append_right (Nat.le_refl _), Nat.sub_self, List.getElem?_cons_zero]
    rw [hget]
    simp only [bind_apply, lift_apply, hm, ↓reduceIte, hrw, pure_apply]
    simp
  | succ i ih =>
    intro hi
    rw [← Nat.add_assoc, scanBack]
    have hget : (pre ++ m :: post)[pre.length + 1 + i]? = post[i]? := by
      rw [List.getElem?_append_right (by omega)]
      have : pre.length + 1 + i - pre.length = i + 1 := by omega
      rw [this, List.getElem?_cons_succ]
    rw [hget]
    have hlt : i < post.length := by omega
    rw [List.getElem?_eq_getElem hlt]
    simp only [bind_apply, lift_apply, hpost _ (List.getElem_mem hlt)]
    simp only [Bool.false_eq_true, ↓reduceIte]
    exact ih (by omega)

theorem rewriteAnswer_record (H : Host) (a : Str) (fs : Fields) (p : Page)
    (hf : hasFields fs = true) :
    rewriteAnswer H (.str a) (record fs) p =
      (.ok (record (withField (withField fs (utf16 "content")
          (utf16 "Guidely.ai Travel Plan\n\nGenerated: " ++ H.format (p.clock p.reads) ++
            utf16 "\n\n" ++ a))
          (utf16 "ts") (H.toISOString (p.clock (p.reads + 1))))),
        { p with reads := p.reads + 2 }) := by
  simp only [hasFields, Bool.and_eq_true] at hf
  have hts : (field (withField fs (utf16 "content")
      (utf16 "Guidely.ai Travel Plan\n\nGenerated: " ++ H.format (p.clock p.reads) ++
        utf16 "\n\n" ++ a)) (utf16 "ts")).isSome = true := by
    rw [field_withField_other _ _ _ _ (by decide)]
    exact hf.2
  simp only [rewriteAnswer, bind_apply, now, lift_apply, formatTimestamp, toStr, pure_apply,
    setMember_record _ _ _ hf.1.2, setMember_record _ _ _ hts]

theorem rewriteFailure_record (H : Host) (err : Thrown) (fs : Fields) (p : Page)
    (hf : hasFields fs = true) :
    rewriteFailure H err (record fs) p =
      (.ok (record (withField (withField fs (utf16 "content")
          (utf16 "❌ Bot failed to respond: " ++ errText err))
          (utf16 "ts") (H.toISOString (p.clock p.reads)))),
        { p with reads := p.reads + 1 }) := by
  simp only [hasFields, Bool.and_eq_true] at hf
  have hts : (field (withField fs (utf16 "content")
      (utf16 "❌ Bot failed to respond: " ++ errText err)) (utf16 "ts")).isSome = true := by
    rw [field_withField_other _ _ _ _ (by decide)]
    exact hf.2
  simp only [rewriteFailure, bind_apply, now, pure_apply,
    setMember_record _ _ _ hf.1.2, setMember_record _ _ _ hts]

theorem hasFields_content (fs : Fields) (h : hasFields fs = true) :
    (field fs (utf16 "content")).isSome = true := by
  simp only [hasFields, Bool.and_eq_true] at h
  exact h.1.2

/-- The scan over a history whose last pending message is `m`. -/
theorem replacePending_hit (H : Host) (rewrite : JValue → Act JValue) (pre post : List Fields)
    (m : Fields) (m1 : JValue) (p p1 : Page)
    (hf : ∀ fs ∈ pre ++ m :: post, hasFields fs = true) (hm : pending m = true)
    (hpost : ∀ x ∈ post, pending x = false) (hrw : rewrite (record m) p = (.ok m1, p1)) :
    replacePending H rewrite (history (pre ++ m :: post)) p =
      (.ok (.arr (pre.map record ++ m1 :: post.map record)), p1) := by
  have h1 : isPending H (record m) = .ok true := by
    rw [isPending_record H m (hasFields_content m (hf m (by simp))), hm]
  have h2 : ∀ x ∈ post.map record, isPending H x = .ok false := by
    intro x hx
    obtain ⟨fs, hfs, rfl⟩ := List.mem_map.mp hx
    rw [isPending_record H fs (hasFields_content fs (hf fs (by simp [hfs]))), hpost fs hfs]
  have key := scanBack_hit H rewrite (pre.map record) (post.map record) (record m) m1 p p1 h1 h2
    hrw (post.map record).length (Nat.le_refl _)
  simp only [replacePending, history, List.map_append, List.map_cons, bind_apply,
    List.length_append, List.length_cons, List.length_map]
  simp only [List.length_map] at key
  have e : pre.length + (post.length + 1) = pre.length + 1 + post.length := by omega
  rw [e, key]
  rfl

/-- The scan over a history without a pending message. -/
theorem replacePending_none (H : Host) (rewrite : JValue → Act JValue) (h : List Fields) (p : Page)
    (hf : ∀ fs ∈ h, hasFields fs = true) (hn : ∀ x ∈ h, pending x = false) :
    replacePending H rewrite (history h) p = (.ok (history h), p) := by
  have key := scanBack_skip H rewrite (h.map record) p (h.map record).length (by
    intro j _ m hm
    obtain ⟨fs, hfs, rfl⟩ := List.mem_map.mp (List.getElem?_mem hm)
    rw [isPending_record H fs (hasFields_content fs (hf fs hfs)), hn fs hfs])
  simp only [replacePending, history, bind_apply, key]
  rfl

theorem withField_message (role content ts c t : Str) :
    withField (withField (message role content ts) (utf16 "content") c) (utf16 "ts") t =
      message role c t := by
  rfl

theorem hasFields_message (role content ts : Str) : hasFields (message role content ts) = true := by
  rfl

theorem pending_placeholder (ts : Str) :
    pending (message (utf16 "assistant") placeholderText ts) = true := by
  rfl

theorem isMessage_hasFields (H : Host) (fs : Fields) (h : isMessage H fs = true) :
    hasFields fs = true := by
  simp only [isMessage, Bool.and_eq_true] at h
  exact h.1.2

/-- Saving and rendering a history of well-formed messages. -/
theorem save_render (H : Host) (h : List Fields) (p : Page)
    (hm : ∀ fs ∈ h, isMessage H fs = true) :
    ∃ els, List.Forall₂ (fun fs el => renderMessage H (record fs) = .ok el) h els ∧
      (do saveChat (history h); renderMessages H (history h) : Act Unit) p =
        (.ok (), { p with
          storage := { p.storage with chat := some (stringify (history h)) }
          chatEl := p.chatEl.map fun _ => els }) := by
  obtain ⟨els, hels⟩ := rendered_exists H h hm
  refine ⟨els, hels, ?_⟩
  simp only [bind_apply, saveChat, renderMessages_history H h els hels]

/-- The `try` block on a stored history that ends with the placeholder. -/
theorem onAnswer_placeholder (H : Host) (net : Str → FetchOutcome) (q a t0 : Str) (h : List Fields)
    (p : Page) (hs : sendQuery H net q = .ok (.str a))
    (hload : loadChat H p.storage = history (h ++ [message (utf16 "assistant") placeholderText t0]))
    (hm : ∀ fs ∈ h, isMessage H fs = true)
    (hiso : ∀ n, (H.dateOf (.str (H.toISOString (p.clock n)))).isSome = true) :
    ∃ els, onAnswer H net q p =
        (.ok (), { p with
          storage := { p.storage with chat := some (stringify (history (h ++
            [message (utf16 "assistant")
              (utf16 "Guidely.ai Travel Plan\n\nGenerated: " ++ H.format (p.clock p.reads) ++
                utf16 "\n\n" ++ a)
              (H.toISOString (p.clock (p.reads + 1)))]))) }
          chatEl := p.chatEl.map fun _ => els
          reads := p.reads + 2 }) := by
  have hf : ∀ fs ∈ h ++ message (utf16 "assistant") placeholderText t0 :: [], hasFields fs = true := by
    intro fs hfs
    rcases List.mem_append.mp hfs with h1 | h1
    · exact isMessage_hasFields H fs (hm fs h1)
    · rw [List.mem_singleton.mp h1]; rfl
  have hit := replacePending_hit H (rewriteAnswer H (.str a)) h []
    (message (utf16 "assistant") placeholderText t0) _ p _ hf (pending_placeholder t0)
    (by simp) (rewriteAnswer_record H a _ p (hasFields_message _ _ _))
  rw [withField_message] at hit
  have hm2 : ∀ fs ∈ h ++ [message (utf16 "assistant")
      (utf16 "Guidely.ai Travel Plan\n\nGenerated: " ++ H.format (p.clock p.reads) ++
        utf16 "\n\n" ++ a) (H.toISOString (p.clock (p.reads + 1)))], isMessage H fs = true := by
    intro fs hfs
    rcases List.mem_append.mp hfs with h1 | h1
    · exact hm fs h1
    · rw [List.mem_singleton.mp h1]
      exact isMessage_message H _ _ _ (hiso _)
  obtain ⟨els, _, hsr⟩ := save_render H _ { p with reads := p.reads + 2 } hm2
  refine ⟨els, ?_⟩
  have hh : JValue.arr (h.map record ++ record (message (utf16 "assistant")
      (utf16 "Guidely.ai Travel Plan\n\nGenerated: " ++ H.format (p.clock p.reads) ++
        utf16 "\n\n" ++ a) (H.toISOString (p.clock (p.reads + 1)))) :: ([] : List Fields).map record) =
      history (h ++ [message (utf16 "assistant")
      (utf16 "Guidely.ai Travel Plan\n\nGenerated: " ++ H.format (p.clock p.reads) ++
        utf16 "\n\n" ++ a) (H.toISOString (p.clock (p.reads + 1)))]) := by
    simp [history]
  rw [hh] at hit
  simp only [bind_apply] at hsr
  simp only [onAnswer, bind_apply, lift_apply, hs, getStorage, hload, hit, hsr]

/-- The `catch` block on a stored history that ends with the placeholder. -/
theorem onFailure_placeholder (H : Host) (err : Thrown) (t0 : Str) (h : List Fields)
    (p : Page)
    (hload : loadChat H p.storage = history (h ++ [message (utf16 "assistant") placeholderText t0]))
    (hm : ∀ fs ∈ h, isMessage H fs = true)
    (hiso : ∀ n, (H.dateOf (.str (H.toISOString (p.clock n)))).isSome = true) :
    ∃ els, onFailure H err p =
        (.ok (), { p with
          storage := { p.storage with chat := some (stringify (history (h ++
            [message (utf16 "assistant") (utf16 "❌ Bot failed to respond: " ++ errText err)
              (H.toISOString (p.clock p.reads))]))) }
          chatEl := p.chatEl.map fun _ => els
          reads := p.reads + 1 }) := by
  have hf : ∀ fs ∈ h ++ message (utf16 "assistant") placeholderText t0 :: [], hasFields fs = true := by
    intro fs hfs
    rcases List.mem_append.mp hfs with h1 | h1
    · exact isMessage_hasFields H fs (hm fs h1)
    · rw [List.mem_singleton.mp h1]; rfl
  have hit := replacePending_hit H (rewriteFailure H err) h []
    (message (utf16 "assistant") placeholderText t0) _ p _ hf (pending_placeholder t0)
    (by simp) (rewriteFailure_record H err _ p (hasFields_message _ _ _))
  rw [withField_message] at hit
  have hm2 : ∀ fs ∈ h ++ [message (utf16 "assistant")
      (utf16 "❌ Bot failed to respond: " ++ errText err) (H.toISOString (p.clock p.reads))],
      isMessage H fs = true := by
    intro fs hfs
    rcases List.mem_append.mp hfs with h1 | h1
    · exact hm fs h1
    · rw [List.mem_singleton.mp h1]
      exact isMessage_message H _ _ _ (hiso _)
  obtain ⟨els, _, hsr⟩ := save_render H _ { p with reads := p.reads + 1 } hm2
  refine ⟨els, ?_⟩
  have hh : JValue.arr (h.map record ++ record (message (utf16 "assistant")
      (utf16 "❌ Bot failed to respond: " ++ errText err) (H.toISOString (p.clock p.reads))) ::
        ([] : List Fields).map record) =
      history (h ++ [message (utf16 "assistant")
      (utf16 "❌ Bot failed to respond: " ++ errText err) (H.toISOString (p.clock p.reads))]) := by
    simp [history]
  rw [hh] at hit
  simp only [bind_apply] at hsr
  simp only [onFailure, bind_apply, getStorage, hload, hit, hsr]

/-- Function `setLoading` touches the two controls only, and completes when the input exists. -/
theorem setLoading_frame (H : Host) (b : Bool) (p : Page) (f : InputEl) (hi : p.inputEl = some f) :
    ∃ p1 f1, setLoading H b p = (.ok (), p1) ∧ p1.storage = p.storage ∧ p1.chatEl = p.chatEl ∧
      p1.clock = p.clock ∧ p1.reads = p.reads ∧ p1.inputEl = some f1 := by
  unfold setLoading
  cases hsub : p.submitEl with
  | none => exact ⟨p, f, rfl, rfl, rfl, rfl, rfl, hi⟩
  | some s => simp [hi]

/-- The `finally` block touches the two controls only, and completes when the input exists. -/
theorem afterSubmit_frame (H : Host) (p : Page) (f : InputEl) (hi : p.inputEl = some f) :
    ∃ p1, afterSubmit H p = (.ok (), p1) ∧ p1.storage = p.storage := by
  obtain ⟨p1, f1, h1, h2, _, _, _, h6⟩ := setLoading_frame H false p f hi
  simp only [afterSubmit, bind_apply, h1, h6]
  exact ⟨_, rfl, h2⟩

/-- The state of the page after the synchronous part of a submission: both
messages are stored. -/
theorem submit_begin (H : Host) (p : Page) (f : InputEl) (h : List Fields) (q : Str)
    (hload : loadChat H p.storage = history h)
    (hm : ∀ fs ∈ h, isMessage H fs = true)
    (hiso : ∀ n, (H.dateOf (.str (H.toISOString (p.clock n)))).isSome = true)
    (hi : p.inputEl = some f) :
    ∃ p3 f3,
      (do
        let _ ← addMessage H (utf16 "user") q
        let _ ← addMessage H (utf16 "assistant") placeholderText
        setLoading H true : Act Unit) p = (.ok (), p3) ∧
      loadChat H p3.storage = history ((h ++ [message (utf16 "user") q (H.toISOString (p.clock p.reads))]) ++
        [message (utf16 "assistant") placeholderText (H.toISOString (p.clock (p.reads + 1)))]) ∧
      p3.clock = p.clock ∧ p3.reads = p.reads + 2 ∧ p3.inputEl = some f3 := by
  obtain ⟨els1, hr1, h1⟩ := addMessage_history H p h (utf16 "user") q hload hm hiso
  have hm1 : ∀ fs ∈ h ++ [message (utf16 "user") q (H.toISOString (p.clock p.reads))],
      isMessage H fs = true := by
    intro fs hfs
    rcases List.mem_append.mp hfs with h1 | h1
    · exact hm fs h1
    · rw [List.mem_singleton.mp h1]
      exact isMessage_message H _ _ _ (hiso _)
  have hl1 := loadChat_saved H p.storage _ (fun fs hfs => isMessage_plain H fs (hm1 fs hfs))
  obtain ⟨els2, hr2, h2⟩ := addMessage_history H
    { p with
      storage := { p.storage with chat := some (stringify (history (h ++
        [message (utf16 "user") q (H.toISOString (p.clock p.reads))]))) }
      chatEl := p.chatEl.map fun _ => els1
      reads := p.reads + 1 } _ (utf16 "assistant") placeholderText hl1 hm1 hiso
  have hm2 : ∀ fs ∈ (h ++ [message (utf16 "user") q (H.toISOString (p.clock p.reads))]) ++
      [message (utf16 "assistant") placeholderText (H.toISOString (p.clock (p.reads + 1)))],
      isMessage H fs = true := by
    intro fs hfs
    rcases List.mem_append.mp hfs with h1 | h1
    · exact hm1 fs h1
    · rw [List.mem_singleton.mp h1]
      exact isMessage_message H _ _ _ (hiso _)
  have hl2 := loadChat_saved H p.storage _ (fun fs hfs => isMessage_plain H fs (hm2 fs hfs))
  obtain ⟨p3, f3, h3, hs3, _, hc3, hr3, hi3⟩ := setLoading_frame H true _ f
    (show ({ p with
      storage := { p.storage with chat := some (stringify (history ((h ++
        [message (utf16 "user") q (H.toISOString (p.clock p.reads))]) ++
        [message (utf16 "assistant") placeholderText (H.toISOString (p.clock (p.reads + 1)))]))) }
      chatEl := p.chatEl.map fun _ => els2
      reads := p.reads + 1 + 1 } : Page).inputEl = some f from hi)
  refine ⟨p3, f3, ?_, ?_, hc3, hr3, hi3⟩
  · simp only [bind_apply, h1, h2]
    simpa using h3
  · rw [hs3]
    exact hl2

/-- C1 (success path of the submit handler).  The stored history is `h`, a list of
well-formed messages; the input holds a text whose trimmed value `q` is not
empty; the service answers with a text `a`; nothing else runs while the request
is in flight.  Then the handler completes and the stored history is `h`
followed by exactly two messages: the user message with content `q`, and an
assistant message whose content is the banner, the formatted instant of the
replacement, a blank line and `a`.  No message of `h` changes, whether or not
`h` or `q` contain the placeholder marker. -/
theorem submit_success (H : Host) (net : Str → FetchOutcome) (p : Page) (f : InputEl)
    (h : List Fields) (a : Str)
    (hload : loadChat H p.storage = history h)
    (hm : ∀ fs ∈ h, isMessage H fs = true)
    (hiso : ∀ n, (H.dateOf (.str (H.toISOString (p.clock n)))).isSome = true)
    (hi : p.inputEl = some f) (hq : trim f.value ≠ [])
    (hs : sendQuery H net (trim f.value) = .ok (.str a)) :
    (submitHandler H net p).1 = .ok () ∧
      loadChat H (submitHandler H net p).2.storage =
        history (h ++
          [message (utf16 "user") (trim f.value) (H.toISOString (p.clock p.reads)),
           message (utf16 "assistant")
            (utf16 "Guidely.ai Travel Plan\n\nGenerated: " ++ H.format (p.clock (p.reads + 2)) ++
              utf16 "\n\n" ++ a)
            (H.toISOString (p.clock (p.reads + 3)))]) := by
  obtain ⟨p3, f3, hb, hl3, hc3, hr3, hi3⟩ := submit_begin H p f h (trim f.value) hload hm hiso hi
  have hm1 : ∀ fs ∈ h ++ [message (utf16 "user") (trim f.value) (H.toISOString (p.clock p.reads))],
      isMessage H fs = true := by
    intro fs hfs
    rcases List.mem_append.mp hfs with h1 | h1
    · exact hm fs h1
    · rw [List.mem_singleton.mp h1]
      exact isMessage_message H _ _ _ (hiso _)
  obtain ⟨els, ha⟩ := onAnswer_placeholder H net (trim f.value) a _ _ p3 hs hl3 hm1
    (by rw [hc3]; exact hiso)
  obtain ⟨p5, h5, hs5⟩ := afterSubmit_frame H
    { p3 with
      storage := { p3.storage with chat := some (stringify (history ((h ++
        [message (utf16 "user") (trim f.value) (H.toISOString (p.clock p.reads))]) ++
        [message (utf16 "assistant")
          (utf16 "Guidely.ai Travel Plan\n\nGenerated: " ++ H.format (p3.clock p3.reads) ++
            utf16 "\n\n" ++ a)
          (H.toISOString (p3.clock (p3.reads + 1)))]))) }
      chatEl := p3.chatEl.map fun _ => els
      reads := p3.reads + 2 } f3 hi3
  have hrun : submitHandler H net p = (.ok (), p5) := by
    simp only [submitHandler, hi, hq, ↓reduceIte]
    simp only [bind_apply] at hb ⊢
    revert hb
    rcases addMessage H (utf16 "user") (trim f.value) p with ⟨o1, q1⟩
    cases o1 with
    | ok v1 =>
      simp only []
      rcases addMessage H (utf16 "assistant") placeholderText q1 with ⟨o2, q2⟩
      cases o2 with
      | ok v2 =>
        simp only []
        intro hb
        rw [hb]
        simp only [tryFinally, tryCatch, ha, h5]
      | threw e => intro hb; cases hb
      | beyond => intro hb; cases hb
    | threw e => intro hb; cases hb
    | beyond => intro hb; cases hb
  rw [hrun]
  refine ⟨rfl, ?_⟩
  simp only [hs5, hc3, hr3]
  have hmall : ∀ fs ∈ h ++
      [message (utf16 "user") (trim f.value) (H.toISOString (p.clock p.reads)),
       message (utf16 "assistant")
        (utf16 "Guidely.ai Travel Plan\n\nGenerated: " ++ H.format (p.clock (p.reads + 2)) ++
          utf16 "\n\n" ++ a)
        (H.toISOString (p.clock (p.reads + 3)))], plainKeys fs = true := by
    intro fs hfs
    rcases List.mem_append.mp hfs with h1 | h1
    · exact isMessage_plain H fs (hm fs h1)
    · simp only [List.mem_cons, List.mem_singleton, List.not_mem_nil, or_false] at h1
      rcases h1 with h1 | h1 <;> rw [h1] <;> rfl
  have := loadChat_saved H p3.storage _ hmall
  simpa using this

/-- Witness for C1: the sample page, whose stored history is a stale placeholder,
and the query of the scenario `Plan a 3-day trip to Goa`. -/
theorem submit_success_witness :
    (submitHandler sampleHost okService samplePage).1 = .ok () ∧
      loadChat sampleHost (submitHandler sampleHost okService samplePage).2.storage =
        history [stale,
          message (utf16 "user") (utf16 "Plan a 3-day trip to Goa") (utf16 "2025-01-01T00:00:00.000Z"),
          message (utf16 "assistant")
            (utf16 "Guidely.ai Travel Plan\n\nGenerated: 01/01/2025, 12:00 AM\n\nDay 1: ...")
            (utf16 "2025-01-01T00:00:03.000Z")] :=
  submit_success sampleHost okService samplePage
    { value := utf16 "  Plan a 3-day trip to Goa ", disabled := false, focused := true }
    [stale] (utf16 "Day 1: ...") (by rfl) (by decide) (fun _ => rfl) rfl (by decide) (by rfl)

/-- For a non-2xx response whose body has a non-empty `error` text, `sendQuery`
throws an `Error` with that text as its message. -/
theorem sendQuery_error_text (H : Host) (net : Str → FetchOutcome) (q body e : Str)
    (status : Nat) (data : JValue)
    (hnet : net (stringify (.obj [(utf16 "query", .str q)])) = .response status body)
    (hst : ¬ (200 ≤ status ∧ status ≤ 299))
    (hbody : jsonParse H.canonNumber body = some data)
    (herr : memberOpt data (utf16 "error") = some (.str e)) (hne : e ≠ []) :
    sendQuery H net q = .error (newError e) := by
  simp [sendQuery, hnet, hbody, hst, herr, truthy, hne, toStr]

/-- C2 (failure path of the submit handler).  The stored history is `h`, a list of
well-formed messages; the trimmed input `q` is not empty; the service answers
with a status outside 200..299 and a JSON body whose `error` member is a
non-empty text `e`; nothing else runs while the request is in flight.  Then the
handler completes and the stored history is `h` followed by exactly the user
message with content `q` and an assistant message with content
"❌ Bot failed to respond: " followed by `e`: the placeholder is gone and no
message of `h` changes. -/
theorem submit_failure (H : Host) (net : Str → FetchOutcome) (p : Page) (f : InputEl)
    (h : List Fields) (status : Nat) (body e : Str) (data : JValue)
    (hload : loadChat H p.storage = history h)
    (hm : ∀ fs ∈ h, isMessage H fs = true)
    (hiso : ∀ n, (H.dateOf (.str (H.toISOString (p.clock n)))).isSome = true)
    (hi : p.inputEl = some f) (hq : trim f.value ≠ [])
    (hnet : net (stringify (.obj [(utf16 "query", .str (trim f.value))])) = .response status body)
    (hst : ¬ (200 ≤ status ∧ status ≤ 299))
    (hbody : jsonParse H.canonNumber body = some data)
    (herr : memberOpt data (utf16 "error") = some (.str e)) (hne : e ≠ []) :
    (submitHandler H net p).1 = .ok () ∧
      loadChat H (submitHandler H net p).2.storage =
        history (h ++
          [message (utf16 "user") (trim f.value) (H.toISOString (p.clock p.reads)),
           message (utf16 "assistant") (utf16 "❌ Bot failed to respond: " ++ e)
            (H.toISOString (p.clock (p.reads + 2)))]) := by
  have hs := sendQuery_error_text H net (trim f.value) body e status data hnet hst hbody herr hne
  have hte : errText (newError e) = e := by simp [errText, newError, hne]
  obtain ⟨p3, f3, hb, hl3, hc3, hr3, hi3⟩ := submit_begin H p f h (trim f.value) hload hm hiso hi
  have hm1 : ∀ fs ∈ h ++ [message (utf16 "user") (trim f.value) (H.toISOString (p.clock p.reads))],
      isMessage H fs = true := by
    intro fs hfs
    rcases List.mem_append.mp hfs with h1 | h1
    · exact hm fs h1
    · rw [List.mem_singleton.mp h1]
      exact isMessage_message H _ _ _ (hiso _)
  obtain ⟨els, ha⟩ := onFailure_placeholder H (newError e) _ _ p3 hl3 hm1
    (by rw [hc3]; exact hiso)
  rw [hte] at ha
  have hthrow : onAnswer H net (trim f.value) p3 = (.threw (newError e), p3) := by
    simp only [onAnswer, bind_apply, lift_apply, hs]
  obtain ⟨p5, h5, hs5⟩ := afterSubmit_frame H
    { p3 with
      storage := { p3.storage with chat := some (stringify (history ((h ++
        [message (utf16 "user") (trim f.value) (H.toISOString (p.clock p.reads))]) ++
        [message (utf16 "assistant") (utf16 "❌ Bot failed to respond: " ++ e)
          (H.toISOString (p3.clock p3.reads))]))) }
      chatEl := p3.chatEl.map fun _ => els
      reads := p3.reads + 1 } f3 hi3
  have hrun : submitHandler H net p = (.ok (), p5) := by
    simp only [submitHandler, hi, hq, ↓reduceIte]
    simp only [bind_apply] at hb ⊢
    revert hb
    rcases addMessage H (utf16 "user") (trim f.value) p with ⟨o1, q1⟩
    cases o1 with
    | ok v1 =>
      simp only []
      rcases addMessage H (utf16 "assistant") placeholderText q1 with ⟨o2, q2⟩
      cases o2 with
      | ok v2 =>
        simp only []
        intro hb
        rw [hb]
        simp only [tryFinally, tryCatch, hthrow, ha, h5]
      | threw e => intro hb; cases hb
      | beyond => intro hb; cases hb
    | threw e => intro hb; cases hb
    | beyond => intro hb; cases hb
  rw [hrun]
  refine ⟨rfl, ?_⟩
  simp only [hs5, hc3, hr3]
  have hmall : ∀ fs ∈ h ++
      [message (utf16 "user") (trim f.value) (H.toISOString (p.clock p.reads)),
       message (utf16 "assistant") (utf16 "❌ Bot failed to respond: " ++ e)
        (H.toISOString (p.clock (p.reads + 2)))], plainKeys fs = true := by
    intro fs hfs
    rcases List.mem_append.mp hfs with h1 | h1
    · exact isMessage_plain H fs (hm fs h1)
    · simp only [List.mem_cons, List.mem_singleton, List.not_mem_nil, or_false] at h1
      rcases h1 with h1 | h1 <;> rw [h1] <;> rfl
  have := loadChat_saved H p3.storage _ hmall
  simpa using this

/-- Witness for C2: status 500 with body `{"error":"rate limited"}` on the sample page. -/
theorem submit_failure_witness :
    (submitHandler sampleHost failingService samplePage).1 = .ok () ∧
      loadChat sampleHost (submitHandler sampleHost failingService samplePage).2.storage =
        history [stale,
          message (utf16 "user") (utf16 "Plan a 3-day trip to Goa") (utf16 "2025-01-01T00:00:00.000Z"),
          message (utf16 "assistant") (utf16 "❌ Bot failed to respond: rate limited")
            (utf16 "2025-01-01T00:00:02.000Z")] :=
  submit_failure sampleHost failingService samplePage
    { value := utf16 "  Plan a 3-day trip to Goa ", disabled := false, focused := true }
    [stale] 500 (utf16 "\x7b\"error\":\"rate limited\"\x7d") (utf16 "rate limited")
    (.obj [(utf16 "error", .str (utf16 "rate limited"))])
    (by rfl) (by decide) (fun _ => rfl) rfl (by decide) rfl (by decide) (by rfl) rfl (by decide)

/-- C3 (placeholder replacement, the backward scan of both branches of the submit
handler).  For a history of messages, an answer text `a` and an error `err`:
when `m` is the last pending message (assistant role, content containing the
marker; nothing after it is pending), the scan of the success branch and the
scan of the failure branch return the history with the content of `m`
overwritten and its `ts` refreshed, every message before it (earlier
placeholders, user messages quoting the marker) and after it unchanged, in the
same order; when no message is pending, both scans return the history
unchanged. -/
theorem placeholder_replacement (H : Host) (h : List Fields) (a : Str) (err : Thrown) (p : Page)
    (hf : ∀ fs ∈ h, hasFields fs = true) :
    (∀ pre m post, h = pre ++ m :: post → pending m = true → (∀ x ∈ post, pending x = false) →
      (replacePending H (rewriteAnswer H (.str a)) (history h) p).1 =
        .ok (history (pre ++
          withField (withField m (utf16 "content")
              (utf16 "Guidely.ai Travel Plan\n\nGenerated: " ++ H.format (p.clock p.reads) ++
                utf16 "\n\n" ++ a))
            (utf16 "ts") (H.toISOString (p.clock (p.reads + 1))) :: post)) ∧
      (replacePending H (rewriteFailure H err) (history h) p).1 =
        .ok (history (pre ++
          withField (withField m (utf16 "content")
              (utf16 "❌ Bot failed to respond: " ++ errText err))
            (utf16 "ts") (H.toISOString (p.clock p.reads)) :: post))) ∧
    ((∀ x ∈ h, pending x = false) →
      (replacePending H (rewriteAnswer H (.str a)) (history h) p).1 = .ok (history h) ∧
      (replacePending H (rewriteFailure H err) (history h) p).1 = .ok (history h)) := by
  constructor
  · intro pre m post hdec hm hpost
    subst hdec
    have hfm : hasFields m = true := hf m (by simp)
    rw [replacePending_hit H _ pre post m _ p _ hf hm hpost (rewriteAnswer_record H a m p hfm),
      replacePending_hit H _ pre post m _ p _ hf hm hpost (rewriteFailure_record H err m p hfm)]
    simp [history]
  · intro hn
    rw [replacePending_none H _ h p hf hn, replacePending_none H _ h p hf hn]
    exact ⟨rfl, rfl⟩

/-- Witness for C3: a history with an earlier placeholder and a user message that
quotes the marker; only the later placeholder is rewritten. -/
theorem placeholder_replacement_witness :
    (replacePending sampleHost (rewriteAnswer sampleHost (.str (utf16 "Day 1: ...")))
        (history sampleHistory) samplePage).1 =
      .ok (history
        [stale,
         message (utf16 "user") (utf16 "Why does it say Crafting your personalized?")
           (utf16 "2025-01-01T00:00:01.000Z"),
         message (utf16 "assistant")
           (utf16 "Guidely.ai Travel Plan\n\nGenerated: 01/01/2025, 12:00 AM\n\nDay 1: ...")
           (utf16 "2025-01-01T00:00:01.000Z"),
         message (utf16 "user") (utf16 "hello") (utf16 "2025-01-01T00:00:03.000Z")]) ∧
    (replacePending sampleHost (rewriteFailure sampleHost (newError (utf16 "rate limited")))
        (history sampleHistory) samplePage).1 =
      .ok (history
        [stale,
         message (utf16 "user") (utf16 "Why does it say Crafting your personalized?")
           (utf16 "2025-01-01T00:00:01.000Z"),
         message (utf16 "assistant") (utf16 "❌ Bot failed to respond: rate limited")
           (utf16 "2025-01-01T00:00:00.000Z"),
         message (utf16 "user") (utf16 "hello") (utf16 "2025-01-01T00:00:03.000Z")]) :=
  (placeholder_replacement sampleHost sampleHistory (utf16 "Day 1: ...")
      (newError (utf16 "rate limited")) samplePage (by decide)).1
    [stale, message (utf16 "user") (utf16 "Why does it say Crafting your personalized?")
      (utf16 "2025-01-01T00:00:01.000Z")]
    (message (utf16 "assistant") placeholderText (utf16 "2025-01-01T00:00:02.000Z"))
    [message (utf16 "user") (utf16 "hello") (utf16 "2025-01-01T00:00:03.000Z")]
    rfl (by decide) (by decide)

theorem isMessage_stamped (H : Host) (clock : Nat → Int)
    (hiso : ∀ n, (H.dateOf (.str (H.toISOString (clock n)))).isSome = true) :
    ∀ (calls : List (Str × Str)) (r : Nat), ∀ fs ∈ stamped H clock r calls, isMessage H fs = true := by
  intro calls
  induction calls with
  | nil => intro r fs hfs; simp [stamped] at hfs
  | cons c rest ih =>
    intro r fs hfs
    obtain ⟨role, content⟩ := c
    simp only [stamped, List.mem_cons] at hfs
    rcases hfs with h1 | h1
    · rw [h1]; exact isMessage_message H _ _ _ (hiso _)
    · exact ih (r + 1) fs h1

theorem length_stamped (H : Host) (clock : Nat → Int) :
    ∀ (calls : List (Str × Str)) (r : Nat), (stamped H clock r calls).length = calls.length := by
  intro calls
  induction calls with
  | nil => intro r; rfl
  | cons c rest ih =>
    intro r
    obtain ⟨role, content⟩ := c
    simp [stamped, ih]

/-- A run of `addMessage` calls on a page whose store holds `h` and whose chat
surface shows `h`: the store then holds `h` followed by the new messages and
the surface shows them all. -/
theorem addAll_history (H : Host) :
    ∀ (calls : List (Str × Str)) (p : Page) (h : List Fields) (els : List MsgElement),
      (∀ n, (H.dateOf (.str (H.toISOString (p.clock n)))).isSome = true) →
      loadChat H p.storage = history h → (∀ fs ∈ h, isMessage H fs = true) →
      List.Forall₂ (fun fs el => renderMessage H (record fs) = .ok el) h els →
      p.chatEl = p.chatEl.map (fun _ => els) →
      ∃ p1 els1, addAll H calls p = (.ok (), p1) ∧
        loadChat H p1.storage = history (h ++ stamped H p.clock p.reads calls) ∧
        List.Forall₂ (fun fs el => renderMessage H (record fs) = .ok el)
          (h ++ stamped H p.clock p.reads calls) els1 ∧
        p1.chatEl = p.chatEl.map (fun _ => els1) ∧ p1.inputEl = p.inputEl := by
  intro calls
  induction calls with
  | nil =>
    intro p h els _ hload _ hels hshow
    exact ⟨p, els, rfl, by simpa [stamped] using hload, by simpa [stamped] using hels, hshow, rfl⟩
  | cons c rest ih =>
    intro p h els hiso hload hm _ _
    obtain ⟨role, content⟩ := c
    obtain ⟨els1, hr1, h1⟩ := addMessage_history H p h role content hload hm hiso
    have hm1 : ∀ fs ∈ h ++ [message role content (H.toISOString (p.clock p.reads))],
        isMessage H fs = true := by
      intro fs hfs
      rcases List.mem_append.mp hfs with h2 | h2
      · exact hm fs h2
      · rw [List.mem_singleton.mp h2]
        exact isMessage_message H _ _ _ (hiso _)
    have hl1 := loadChat_saved H p.storage _ (fun fs hfs => isMessage_plain H fs (hm1 fs hfs))
    obtain ⟨p2, els2, hrun, hl2, hr2, hc2, hi2⟩ := ih
      { p with
        storage := { p.storage with chat := some (stringify (history (h ++
          [message role content (H.toISOString (p.clock p.reads))]))) }
        chatEl := p.chatEl.map fun _ => els1
        reads := p.reads + 1 } _ els1 hiso hl1 hm1 hr1 (by cases p.chatEl <;> rfl)
    refine ⟨p2, els2, ?_, ?_, ?_, ?_, hi2⟩
    · simp only [addAll, bind_apply, h1]
      exact hrun
    · simpa [stamped] using hl2
    · simpa [stamped] using hr2
    · rw [hc2]
      cases p.chatEl <;> rfl

/-- C6 (append count).  From any page, after a click on clear followed by
`addMessage` calls with any roles and contents, the run completes; the stored
history is exactly the messages of the calls in call order, one per call, each
with the role and content of its call and the time stamp of its instant; and
the chat surface, when the page has one, holds exactly one element per call, in
call order, each showing its message as the specification describes: class
and author label by role, the content as markup for an assistant message and
as plain text otherwise, and the formatted time stamp.  With no call the
stored history read back and the surface are empty. -/
theorem append_count (H : Host) (p : Page) (calls : List (Str × Str))
    (hiso : ∀ n, (H.dateOf (.str (H.toISOString (p.clock n)))).isSome = true) :
    (clearThenAdd H calls p).1 = .ok () ∧
      loadChat H (clearThenAdd H calls p).2.storage = history (stamped H p.clock p.reads calls) ∧
      (stamped H p.clock p.reads calls).length = calls.length ∧
      (clearThenAdd H calls p).2.chatEl =
        p.chatEl.map (fun _ => (stamped H p.clock p.reads calls).map (shownAs H)) ∧
      ((stamped H p.clock p.reads calls).map (shownAs H)).length = calls.length := by
  have hclear : ∃ p0, clearHandler H p = (.ok (), p0) ∧ loadChat H p0.storage = history [] ∧
      p0.chatEl = p.chatEl.map (fun _ => []) ∧ p0.clock = p.clock ∧ p0.reads = p.reads := by
    have hr := renderMessages_history H [] [] List.Forall₂.nil
      { p with storage := { p.storage with chat := none } }
    simp only [history, List.map_nil] at hr
    simp only [clearHandler, bind_apply, hr]
    cases hin : p.inputEl with
    | none => exact ⟨_, rfl, rfl, rfl, rfl, rfl⟩
    | some f => exact ⟨_, rfl, rfl, rfl, rfl, rfl⟩
  obtain ⟨p0, h0, hl0, hc0, hk0, hr0⟩ := hclear
  obtain ⟨p1, els1, hrun, hl1, hr1, hc1, _⟩ := addAll_history H calls p0 [] []
    (by rw [hk0]; exact hiso) hl0
    (by simp) List.Forall₂.nil (by rw [hc0]; cases p.chatEl <;> rfl)
  have hfull : clearThenAdd H calls p = (.ok (), p1) := by
    simp only [clearThenAdd, bind_apply, h0, hrun]
  rw [hk0, hr0] at hl1 hr1
  simp only [List.nil_append] at hl1 hr1
  have hels : els1 = (stamped H p.clock p.reads calls).map (shownAs H) :=
    rendered_unique H _ els1 (isMessage_stamped H p.clock hiso calls p.reads) hr1
  refine ⟨?_, ?_, length_stamped H _ _ _, ?_, ?_⟩
  · rw [hfull]
  · rw [hfull]; exact hl1
  · rw [hfull, hc1, hc0, hels]; cases p.chatEl <;> rfl
  · rw [List.length_map, length_stamped]

/-- Witness for C6: two calls on the sample page, whose store held a stale
placeholder before the click on clear. -/
theorem append_count_witness :
    (clearThenAdd sampleHost [(utf16 "user", utf16 "hi"), (utf16 "assistant", utf16 "**hello**")]
        samplePage).1 = .ok () ∧
      loadChat sampleHost
          (clearThenAdd sampleHost [(utf16 "user", utf16 "hi"), (utf16 "assistant", utf16 "**hello**")]
            samplePage).2.storage =
        history
          [message (utf16 "user") (utf16 "hi") (utf16 "2025-01-01T00:00:00.000Z"),
           message (utf16 "assistant") (utf16 "**hello**") (utf16 "2025-01-01T00:00:01.000Z")] ∧
      (stamped sampleHost samplePage.clock samplePage.reads
          [(utf16 "user", utf16 "hi"), (utf16 "assistant", utf16 "**hello**")]).length = 2 ∧
      (clearThenAdd sampleHost [(utf16 "user", utf16 "hi"), (utf16 "assistant", utf16 "**hello**")]
          samplePage).2.chatEl =
        some
          [{ className := utf16 "msg user"
             bubble := Bubble.text (some (.str (utf16 "hi")))
             metaText := utf16 "You • 01/01/2025, 12:00 AM" },
           { className := utf16 "msg assistant"
             bubble := Bubble.html (utf16 "**hello**")
             metaText := utf16 "Guidely.ai • 01/01/2025, 12:00 AM" }] ∧
      ((stamped sampleHost samplePage.clock samplePage.reads
          [(utf16 "user", utf16 "hi"), (utf16 "assistant", utf16 "**hello**")]).map
            (shownAs sampleHost)).length = 2 :=
  append_count sampleHost samplePage [(utf16 "user", utf16 "hi"), (utf16 "assistant", utf16 "**hello**")]
    (fun _ => rfl)

/-- C7 (store round trip).  When the stored text is a well-formed chat history, a
JSON array of records with text members such as `role`, `content` and `ts`,
then `saveChat(loadChat())` completes and the history `loadChat` reads
afterwards is the history it read before; when moreover the stored text is
what `saveChat` writes for that history, the store is left exactly as it was. -/
theorem save_load_roundtrip (H : Host) (p : Page) (t : Str) (h : List Fields)
    (hst : p.storage.chat = some t)
    (hparse : jsonParse H.canonNumber t = some (history h))
    (hp : ∀ fs ∈ h, plainKeys fs = true) :
    (saveChat (loadChat H p.storage) p).1 = .ok () ∧
      loadChat H (saveChat (loadChat H p.storage) p).2.storage = loadChat H p.storage ∧
      (t = stringify (history h) → (saveChat (loadChat H p.storage) p).2.storage = p.storage) := by
  have hne : t ≠ [] := by
    intro h0
    rw [h0] at hparse
    cases hparse
  have hload : loadChat H p.storage = history h := by
    simp [loadChat, hst, hne, hparse]
  refine ⟨rfl, ?_, ?_⟩
  · rw [hload]
    exact loadChat_saved H p.storage h hp
  · intro ht
    rw [hload]
    simp only [saveChat]
    rw [← ht, ← hst]

/-- Witness for C7: the store of the sample page, which holds what `saveChat`
writes for the stale placeholder. -/
theorem save_load_roundtrip_witness :
    loadChat sampleHost (saveChat (loadChat sampleHost samplePage.storage) samplePage).2.storage =
        history [stale] ∧
      (saveChat (loadChat sampleHost samplePage.storage) samplePage).2.storage =
        samplePage.storage :=
  have w := save_load_roundtrip sampleHost samplePage _ [stale] rfl (by rfl) (by decide)
  ⟨w.2.1, w.2.2 (by decide)⟩

/-- Counterexample to C4 as stated: a 2xx response whose body is not JSON makes
`sendQuery` fail instead of returning the fallback text; a 2xx body whose
`answer` is the empty text yields the fallback text, not that answer; a 500
body whose `error` is the empty text yields `Unknown error`, not that text. -/
theorem sendQuery_normalises_counterexample :
    sendQuery sampleHost (fun _ => .response 200 (utf16 "<html>Bad gateway</html>"))
        (utf16 "Plan a 3-day trip to Goa") =
      .error (syntaxError sampleHost (utf16 "<html>Bad gateway</html>")) ∧
    sendQuery sampleHost (fun _ => .response 200 (utf16 "\x7b\"answer\":\"\"\x7d"))
        (utf16 "Plan a 3-day trip to Goa") =
      .ok (.str (utf16 "No answer returned.")) ∧
    sendQuery sampleHost (fun _ => .response 500 (utf16 "\x7b\"error\":\"\"\x7d"))
        (utf16 "Plan a 3-day trip to Goa") =
      .error (newError (utf16 "Unknown error")) :=
  ⟨rfl, rfl, rfl⟩

/-- C4, amended.  For every response with a status outside 200..299, whatever
the shape of its body, `sendQuery` fails: with the parser's `SyntaxError` when
the body is not JSON; otherwise with an `Error` whose message is the body's
`error` text when that text is not empty (for any other truthy `error`, its
string conversion), and `Unknown error` when the body has no `error` member
or a falsy one (empty text, `null`, `false`, zero).  For every response with a
status within 200..299 whose body is JSON, it returns the body's `answer`
when that is truthy, in particular a non-empty text, and `No answer returned.`
when the body has no `answer` member or a falsy one; when that body is not
JSON, it fails with the parser's `SyntaxError`. -/
theorem sendQuery_normalises (H : Host) (net : Str → FetchOutcome) (q : Str) (status : Nat)
    (body : Str)
    (hnet : net (stringify (.obj [(utf16 "query", .str q)])) = .response status body) :
    (¬ (200 ≤ status ∧ status ≤ 299) → ∃ err, sendQuery H net q = .error err) ∧
    (jsonParse H.canonNumber body = none → sendQuery H net q = .error (syntaxError H body)) ∧
    (∀ data, jsonParse H.canonNumber body = some data →
      (¬ (200 ≤ status ∧ status ≤ 299) →
        (∀ e, memberOpt data (utf16 "error") = some (.str e) → e ≠ [] →
          sendQuery H net q = .error (newError e)) ∧
        (∀ v, memberOpt data (utf16 "error") = some v → truthy v = true →
          sendQuery H net q =
            match toStr H v with
            | .ok s => .error (newError s)
            | .error err => .error err) ∧
        (memberOpt data (utf16 "error") = none →
          sendQuery H net q = .error (newError (utf16 "Unknown error"))) ∧
        (∀ v, memberOpt data (utf16 "error") = some v →
          (v = .str [] ∨ v = .null ∨ v = .bool false ∨ v = .num (utf16 "0") ∨ truthy v = false) →
          sendQuery H net q = .error (newError (utf16 "Unknown error")))) ∧
      ((200 ≤ status ∧ status ≤ 299) →
        (∀ a, memberOpt data (utf16 "answer") = some (.str a) → a ≠ [] →
          sendQuery H net q = .ok (.str a)) ∧
        (∀ v, memberOpt data (utf16 "answer") = some v → truthy v = true →
          sendQuery H net q = .ok v) ∧
        (memberOpt data (utf16 "answer") = none →
          sendQuery H net q = .ok (.str (utf16 "No answer returned."))) ∧
        (∀ v, memberOpt data (utf16 "answer") = some v →
          (v = .str [] ∨ v = .null ∨ v = .bool false ∨ v = .num (utf16 "0") ∨ truthy v = false) →
          sendQuery H net q = .ok (.str (utf16 "No answer returned."))))) := by
  have hfalsy : ∀ v : JValue,
      (v = .str [] ∨ v = .null ∨ v = .bool false ∨ v = .num (utf16 "0") ∨ truthy v = false) →
      truthy v = false := by
    intro v hv
    rcases hv with h | h | h | h | h
    · rw [h]; rfl
    · rw [h]; rfl
    · rw [h]; rfl
    · rw [h]; rfl
    · exact h
  refine ⟨fun hst => ?_, fun hb => by simp [sendQuery, hnet, hb],
    fun data hb => ⟨fun hst => ⟨?_, ?_, ?_, ?_⟩, fun hst => ⟨?_, ?_, ?_, ?_⟩⟩⟩
  · cases hb : jsonParse H.canonNumber body with
    | none => exact ⟨syntaxError H body, by simp [sendQuery, hnet, hb]⟩
    | some data =>
      cases he : memberOpt data (utf16 "error") with
      | none => exact ⟨newError (utf16 "Unknown error"), by simp [sendQuery, hnet, hb, hst, he]⟩
      | some v =>
        cases ht : truthy v with
        | false =>
          exact ⟨newError (utf16 "Unknown error"), by simp [sendQuery, hnet, hb, hst, he, ht]⟩
        | true =>
          cases hs : toStr H v with
          | ok s => exact ⟨newError s, by simp [sendQuery, hnet, hb, hst, he, ht, hs]⟩
          | error err => exact ⟨err, by simp [sendQuery, hnet, hb, hst, he, ht, hs]⟩
  · intro e he hne
    exact sendQuery_error_text H net q body e status data hnet hst hb he hne
  · intro v he ht
    cases hs : toStr H v <;> simp [sendQuery, hnet, hb, hst, he, ht, hs]
  · intro he
    simp [sendQuery, hnet, hb, hst, he]
  · intro v he hv
    simp [sendQuery, hnet, hb, hst, he, hfalsy v hv]
  · intro a ha hne
    simp [sendQuery, hnet, hb, hst, ha, truthy, hne]
  · intro v ha ht
    simp [sendQuery, hnet, hb, hst, ha, ht]
  · intro ha
    simp [sendQuery, hnet, hb, hst, ha]
  · intro v ha hv
    simp [sendQuery, hnet, hb, hst, ha, hfalsy v hv]

/-- Witness for C4: the two responses of the scenarios, and bodies whose `error`
or `answer` member is `null`. -/
theorem sendQuery_normalises_witness :
    sendQuery sampleHost failingService (utf16 "Plan a 3-day trip to Goa") =
        .error (newError (utf16 "rate limited")) ∧
      sendQuery sampleHost okService (utf16 "Plan a 3-day trip to Goa") =
        .ok (.str (utf16 "Day 1: ...")) ∧
      sendQuery sampleHost (fun _ => .response 500 (utf16 "\x7b\"error\":null\x7d"))
          (utf16 "Plan a 3-day trip to Goa") =
        .error (newError (utf16 "Unknown error")) ∧
      sendQuery sampleHost (fun _ => .response 200 (utf16 "\x7b\"answer\":null\x7d"))
          (utf16 "Plan a 3-day trip to Goa") =
        .ok (.str (utf16 "No answer returned.")) :=
  ⟨((sendQuery_normalises sampleHost failingService (utf16 "Plan a 3-day trip to Goa") 500
        (utf16 "\x7b\"error\":\"rate limited\"\x7d") rfl).2.2
      (.obj [(utf16 "error", .str (utf16 "rate limited"))]) rfl).1 (by decide) |>.1
      (utf16 "rate limited") rfl (by decide),
   ((sendQuery_normalises sampleHost okService (utf16 "Plan a 3-day trip to Goa") 200
        (utf16 "\x7b\"answer\":\"Day 1: ...\"\x7d") rfl).2.2
      (.obj [(utf16 "answer", .str (utf16 "Day 1: ..."))]) rfl).2 (by decide) |>.1
      (utf16 "Day 1: ...") rfl (by decide),
   ((sendQuery_normalises sampleHost (fun _ => .response 500 (utf16 "\x7b\"error\":null\x7d"))
        (utf16 "Plan a 3-day trip to Goa") 500 (utf16 "\x7b\"error\":null\x7d") rfl).2.2
      (.obj [(utf16 "error", .null)]) rfl).1 (by decide) |>.2.2.2
      .null rfl (Or.inr (Or.inl rfl)),
   ((sendQuery_normalises sampleHost (fun _ => .response 200 (utf16 "\x7b\"answer\":null\x7d"))
        (utf16 "Plan a 3-day trip to Goa") 200 (utf16 "\x7b\"answer\":null\x7d") rfl).2.2
      (.obj [(utf16 "answer", .null)]) rfl).2 (by decide) |>.2.2.2
      .null rfl (Or.inr (Or.inl rfl))⟩

/-- Counterexample to C5 as stated: the stored text `{}` is not the serialisation
of a list of messages, and `loadChat` returns the parsed object, not the
empty sequence. -/
theorem loadChat_fails_closed_counterexample :
    loadChat sampleHost { chat := some (utf16 "\x7b\x7d"), theme := none } = .obj [] ∧
      loadChat sampleHost { chat := some (utf16 "\x7b\x7d"), theme := none } ≠ .arr [] :=
  ⟨rfl, fun h => by cases h⟩

/-- C5, amended.  `loadChat` is total (it never throws): it returns the empty
sequence when the key is absent and when the stored text does not parse as
JSON (the empty text included); when the stored text parses, it returns the
parsed value, whatever its shape. -/
theorem loadChat_total (H : Host) (st : Storage) :
    (st.chat = none → loadChat H st = .arr []) ∧
    (∀ t, st.chat = some t → jsonParse H.canonNumber t = none → loadChat H st = .arr []) ∧
    (∀ t v, st.chat = some t → jsonParse H.canonNumber t = some v → loadChat H st = v) := by
  refine ⟨fun h => ?_, fun t h hp => ?_, fun t v h hp => ?_⟩
  · have : jsonParse H.canonNumber (utf16 "[]") = some (.arr []) := rfl
    simp [loadChat, h, this]
  · have : jsonParse H.canonNumber (utf16 "[]") = some (.arr []) := rfl
    by_cases ht : t = []
    · simp [loadChat, h, ht, this]
    · simp [loadChat, h, ht, hp]
  · have ht : t ≠ [] := by
      intro h0
      rw [h0] at hp
      cases hp
    simp [loadChat, h, ht, hp]

/-- Witness for C5: an absent key, the text `not json`, and a stored history. -/
theorem loadChat_total_witness :
    loadChat sampleHost { chat := none, theme := none } = .arr [] ∧
      loadChat sampleHost { chat := some (utf16 "not json"), theme := none } = .arr [] ∧
      loadChat sampleHost samplePage.storage = history [stale] :=
  ⟨(loadChat_total sampleHost { chat := none, theme := none }).1 rfl,
   (loadChat_total sampleHost { chat := some (utf16 "not json"), theme := none }).2.1
      (utf16 "not json") rfl rfl,
   (loadChat_total sampleHost samplePage.storage).2.2 _ (history [stale]) rfl rfl⟩

/-- Counterexample to C8 as stated: on the sample page (light theme applied, no
stored preference) two toggles leave the preference `light` stored, not absent. -/
theorem double_toggle_counterexample :
    samplePage.storage.theme = none ∧
      (toggleTheme (toggleTheme samplePage)).storage.theme = some (utf16 "light") := by
  decide

/-- C8, amended.  Two toggles in a row return the applied theme to the original
one and leave stored the preference that names it; the stored value is
therefore the original stored value exactly when that value already named
the applied theme.  The chat key is untouched. -/
theorem double_toggle (p : Page) :
    (toggleTheme (toggleTheme p)).dark = p.dark ∧
      (toggleTheme (toggleTheme p)).storage.theme =
        some (if p.dark then utf16 "dark" else utf16 "light") ∧
      ((toggleTheme (toggleTheme p)).storage.theme = p.storage.theme ↔
        p.storage.theme = some (if p.dark then utf16 "dark" else utf16 "light")) ∧
      (toggleTheme (toggleTheme p)).storage.chat = p.storage.chat := by
  have h2 : (toggleTheme (toggleTheme p)).storage.theme =
      some (if p.dark then utf16 "dark" else utf16 "light") := by
    cases hd : p.dark <;> cases ht : p.toggle <;>
      simp [toggleTheme, applyTheme, hd, ht]
  have hne : utf16 "light" ≠ utf16 "dark" := by decide
  refine ⟨?_, h2, ?_, ?_⟩
  · cases hd : p.dark <;> cases ht : p.toggle <;>
      simp [toggleTheme, applyTheme, hd, ht, hne]
  · rw [h2]
    exact ⟨fun h => h.symm, fun h => h.symm⟩
  · cases hd : p.dark <;> cases ht : p.toggle <;>
      simp [toggleTheme, applyTheme, hd, ht]

/-- Witness for C8: a page with the dark theme applied and stored; two toggles
restore both. -/
theorem double_toggle_witness :
    (toggleTheme (toggleTheme
        { samplePage with dark := true, storage := { chat := none, theme := some (utf16 "dark") } })).dark =
        true ∧
      (toggleTheme (toggleTheme
        { samplePage with dark := true, storage := { chat := none, theme := some (utf16 "dark") } })).storage.theme =
        some (utf16 "dark") :=
  ⟨(double_toggle
      { samplePage with dark := true, storage := { chat := none, theme := some (utf16 "dark") } }).1,
   (double_toggle
      { samplePage with dark := true, storage := { chat := none, theme := some (utf16 "dark") } }).2.2.1.mpr
      rfl⟩

/-- C9 (initial theme resolution).  `getPreferredTheme` returns the stored value
when it is `light` or `dark`, whatever the system signals; when the key is
absent or holds any other text it returns `dark` if the system signals a dark
preference and `light` otherwise, in particular when the window has no
`matchMedia`.  After a toggle it returns the theme the toggle saved. -/
theorem preferred_theme (st : Storage) (system : Option Bool) :
    (∀ s, st.theme = some s → (s = utf16 "light" ∨ s = utf16 "dark") →
      getPreferredTheme st system = s) ∧
    ((∀ s, st.theme = some s → s ≠ utf16 "light" ∧ s ≠ utf16 "dark") →
      getPreferredTheme st system = if system = some true then utf16 "dark" else utf16 "light") ∧
    (∀ p : Page, getPreferredTheme (toggleTheme p).storage system =
      if p.dark then utf16 "light" else utf16 "dark") := by
  refine ⟨fun s hs hv => ?_, fun h => ?_, fun p => ?_⟩
  · simp [getPreferredTheme, hs, hv]
  · cases hs : st.theme with
    | none => simp [getPreferredTheme, hs]
    | some s =>
      have := h s hs
      simp [getPreferredTheme, hs, this.1, this.2]
  · cases hd : p.dark <;> cases ht : p.toggle <;>
      simp [getPreferredTheme, toggleTheme, applyTheme, hd, ht]

/-- Witness for C9: a stored `dark` wins over a light system, an unknown stored
text falls back to `light` without `matchMedia`, an absent key follows a dark
system. -/
theorem preferred_theme_witness :
    getPreferredTheme { chat := none, theme := some (utf16 "dark") } (some false) = utf16 "dark" ∧
      getPreferredTheme { chat := none, theme := some (utf16 "blue") } none = utf16 "light" ∧
      getPreferredTheme { chat := none, theme := none } (some true) = utf16 "dark" :=
  ⟨(preferred_theme { chat := none, theme := some (utf16 "dark") } (some false)).1 (utf16 "dark") rfl
      (Or.inr rfl),
   (preferred_theme { chat := none, theme := some (utf16 "blue") } none).2.1
      (fun s hs => by cases hs; decide),
   (preferred_theme { chat := none, theme := none } (some true)).2.1
      (fun s hs => by cases hs)⟩

/-- The two paths of the copy handler: a successful clipboard write sets the
label to `Copied!` and schedules its return to `Copy` after 1200 ms; a failed
one runs the legacy copy once and leaves the label and the timers as they were. -/
theorem copyHandler_paths (l : LinksPanel) :
    ((copyHandler true l).copyLabel = utf16 "Copied!" ∧
      (copyHandler true l).timers = l.timers ++ [(1200, utf16 "Copy")] ∧
      (copyHandler true l).clipboard = some l.text ∧
      (copyHandler true l).legacyCopies = l.legacyCopies) ∧
    ((copyHandler false l).copyLabel = l.copyLabel ∧
      (copyHandler false l).timers = l.timers ∧
      (copyHandler false l).clipboard = l.clipboard ∧
      (copyHandler false l).legacyCopies = l.legacyCopies + 1) := by
  simp [copyHandler]

/-- C10 (copy feedback), the code at the failing input.  On the links panel before
any click, a click whose clipboard write succeeds shows `Copied!` and sets the
1200 ms timer, while a click whose clipboard write fails runs the legacy copy
and shows no feedback: the label stays `Copy` and no timer is set. -/
theorem copy_feedback_fallback :
    ((copyHandler true sampleLinks).copyLabel = utf16 "Copied!" ∧
      (copyHandler true sampleLinks).timers = [(1200, utf16 "Copy")]) ∧
    ((copyHandler false sampleLinks).copyLabel = utf16 "Copy" ∧
      (copyHandler false sampleLinks).timers = [] ∧
      (copyHandler false sampleLinks).legacyCopies = 1) := by
  decide

end Guidely
